/-
Verification of the pylitaire card-stack data model and rule engine
(`src/pylitaire/cards.py`, `src/pylitaire/gamerules.py`).

The Python object graph is shallowly embedded as follows.

* A `Card` is identified by a natural-number index into the deck
  (`deck.cards` order).  Its mutable fields `parent`, `child`, `slot`
  (object references or `None` in Python) become `Option Nat`; `rank`,
  `suit` and `_faceup` are carried verbatim.  Purely visual fields
  (`rect`, `orientation`, `image`, `velocity`) are omitted: no branch of
  any topological operation (`stack`, `pop`, `place`, `Slot.stack`,
  `Slot.deal`, `flip`) reads them, so the projection is exact on the
  fields modelled here.  The drag protocol (`start_drag`/`drag`), whose
  behaviour does depend on positions, is embedded separately below
  (`DragSt`).
* A `Slot` is identified by its index in `Game.slots` (creation order).
  Its only mutable topological field is `child : Option Nat`.
* A game state `GameSt` carries the card array (total function with a
  cleanliness convention outside `[0, n)`), the slot-head table, the
  undo-command log `undocmds` and the `redeals` counter used by
  Backbone.
* Python's unbounded recursion over `child` chains (`Card.children`,
  `Card._set_slot`, `Slot.cards`) is embedded with explicit fuel
  `s.n` (the number of cards); in every well-formed state chains are
  acyclic with at most `s.n` cards, so the fuel is never exhausted and
  the embedding agrees with the source.
-/

import Mathlib

namespace Pylitaire

/-- `TURN` enum from cards.py: facing requested from `Card.flip`.
`SAME = None`, `TOGGLE = ''`, `FACEUP = True`, `FACEDOWN = False`. -/
inductive TURN where
  | SAME
  | TOGGLE
  | FACEUP
  | FACEDOWN
deriving DecidableEq, Repr

/-- A click/drop target handed to the rule engine by the GUI: either one
of the game's slots (by index in `Game.slots`) or a card (by index in
`deck.cards`). -/
inductive Target where
  | slot (k : Nat)
  | card (i : Nat)
deriving DecidableEq, Repr

/-- The mutable state of one `Card` object (cards.py), restricted to the
fields the game logic reads: the `parent`/`child`/`slot` references, the
`_faceup` flag, and the immutable identity `rank`/`suit` (ints in the
source, `RANK.ACE = 1 .. RANK.KING = 13`, `SUIT.CLUBS = 1 .. SUIT.SPADES = 4`). -/
structure CardSt where
  rank   : Nat
  suit   : Nat
  parent : Option Nat
  child  : Option Nat
  slot   : Option Nat
  faceup : Bool
deriving DecidableEq, Repr

instance : Inhabited CardSt := ⟨⟨0, 0, none, none, none, false⟩⟩

/-- One stored undo `Command` (gamerules.py): a bound method plus its
arguments.  Only the shapes actually pushed by the games appear. -/
inductive UndoCmd where
  | slotStack (k i : Nat)
  | deal (src : Nat) (targets : List Nat) (turn : TURN)
  | flip (i : Nat)
  | undoRedeals
deriving DecidableEq, Repr

/-- An entry of `Game.undocmds`: either a bare `Command` or a list of
commands recorded for one gesture (executed in reverse by `undo`). -/
inductive UndoEntry where
  | single (c : UndoCmd)
  | group (cs : List UndoCmd)
deriving DecidableEq, Repr

/-- A whole game state: `n` cards (indices `0 .. n-1`), `m` slots, the
card states, the slot `child` table, the undo log and the Backbone
`redeals` counter. -/
structure GameSt where
  n        : Nat
  m        : Nat
  cards    : Nat → CardSt
  slots    : Nat → Option Nat
  undocmds : List UndoEntry
  redeals  : Nat

namespace GameSt

/-- Overwrite the state of card `i`. -/
def setCard (s : GameSt) (i : Nat) (c : CardSt) : GameSt :=
  { s with cards := fun x => if x = i then c else s.cards x }

/-- `card.parent = v`. -/
def setParent (s : GameSt) (i : Nat) (v : Option Nat) : GameSt :=
  s.setCard i { s.cards i with parent := v }

/-- `card.child = v`. -/
def setChild (s : GameSt) (i : Nat) (v : Option Nat) : GameSt :=
  s.setCard i { s.cards i with child := v }

/-- `card.slot = v` (one card only; the recursive `_set_slot` is below). -/
def setSlotField (s : GameSt) (i : Nat) (v : Option Nat) : GameSt :=
  s.setCard i { s.cards i with slot := v }

/-- `card._faceup = v`. -/
def setFace (s : GameSt) (i : Nat) (v : Bool) : GameSt :=
  s.setCard i { s.cards i with faceup := v }

/-- `slot.child = v` for slot `k`. -/
def setSlotHead (s : GameSt) (k : Nat) (v : Option Nat) : GameSt :=
  { s with slots := fun x => if x = k then v else s.slots x }

end GameSt

/-- The list of descendants of card `i` following `child` links, i.e.
Python's `Card.children` property, computed with explicit fuel (in a
well-formed state fuel `s.n` exhausts the chain, see `chain_of_chainFrom`). -/
def chain (s : GameSt) : Nat → Nat → List Nat
  | 0, _ => []
  | fuel + 1, i =>
    match (s.cards i).child with
    | none => []
    | some j => j :: chain s fuel j

/-- `j`-fold iteration of the `child` successor (`none` once the chain
ends).  Pure reasoning companion of `chain`. -/
def iterC (s : GameSt) : Nat → Nat → Option Nat
  | 0, i => some i
  | k + 1, i =>
    match (s.cards i).child with
    | none => none
    | some j => iterC s k j

/-- `ChainFrom s x L`: the full descendant list of `x` is exactly `L`
(so the last card of `x :: L` has no child). -/
def ChainFrom (s : GameSt) : Nat → List Nat → Prop
  | x, [] => (s.cards x).child = none
  | x, y :: L => (s.cards x).child = some y ∧ ChainFrom s y L

instance instDecChainFrom (s : GameSt) : (x : Nat) → (L : List Nat) → Decidable (ChainFrom s x L)
  | x, [] => by unfold ChainFrom; infer_instance
  | x, y :: L => by
      unfold ChainFrom
      have := instDecChainFrom s y L
      infer_instance

/-- `Slot.cards` property: the full ordered chain anchored at slot `k`. -/
def slotCards (s : GameSt) (k : Nat) : List Nat :=
  match s.slots k with
  | none => []
  | some h => h :: chain s s.n h

/-- `Slot.is_empty` property. -/
def slotIsEmpty (s : GameSt) (k : Nat) : Prop := s.slots k = none

instance (s : GameSt) (k : Nat) : Decidable (slotIsEmpty s k) := by
  unfold slotIsEmpty; infer_instance

/-- `Slot.tail` property (`cards[-1]` when non-empty).  We default to the
head itself for an empty chain; callers only use it on non-empty slots. -/
def slotTail (s : GameSt) (k : Nat) : Option Nat :=
  match s.slots k with
  | none => none
  | some h => some ((chain s s.n h).getLastD h)

/-- `Card._set_slot`: set the `slot` reference of card `i` and,
recursively, of all its descendants. -/
def setSlotChain (s : GameSt) : Nat → Nat → Option Nat → GameSt
  | 0, _, _ => s
  | fuel + 1, i, v =>
    let s' := s.setSlotField i v
    match (s'.cards i).child with
    | none => s'
    | some j => setSlotChain s' fuel j v

/-- `Card.pop`: disconnect card `i` from its parent and its slot,
keeping its own children (which follow it, their `slot` cleared). -/
def popOp (s : GameSt) (i : Nat) : GameSt :=
  -- if self.slot and self.slot.child is self: self.slot.child = None
  let s₁ :=
    match (s.cards i).slot with
    | none => s
    | some k => if s.slots k = some i then s.setSlotHead k none else s
  -- self._set_slot(None)
  let s₂ := setSlotChain s₁ (s₁.n + 1) i none
  -- if self.parent: self.parent.child = None
  let s₃ :=
    match (s₂.cards i).parent with
    | none => s₂
    | some p => s₂.setChild p none
  -- self.parent = None
  s₃.setParent i none

/-- `Card.stack(card)`: snap card `i` onto card `j` as its child
(gamerules call it via `Slot.stack`).  The self-stack guard and both
auto-correcting pops of the source are reproduced. -/
def stackOp (s : GameSt) (i j : Nat) : GameSt :=
  -- if card is self: return
  if i = j then s
  else
    -- if card in self.children: card.pop()
    let s₁ := if j ∈ chain s s.n i then popOp s j else s
    -- if card.child: card.child.pop()
    let s₂ :=
      match (s₁.cards j).child with
      | none => s₁
      | some d => popOp s₁ d
    -- self.pop()
    let s₃ := popOp s₂ i
    -- self.parent = card; self.parent.child = self
    let s₄ := (s₃.setParent i (some j)).setChild j (some i)
    -- self._set_slot(self.parent.slot)
    setSlotChain s₄ (s₄.n + 1) i ((s₄.cards j).slot)

/-- `Card.place(slot)`: make card `i` the head of slot `k`, displacing
any other occupant. -/
def placeOp (s : GameSt) (i k : Nat) : GameSt :=
  -- if slot.child and slot.child is not self: slot.child.pop()
  let s₁ :=
    match s.slots k with
    | none => s
    | some h => if h ≠ i then popOp s h else s
  -- self.pop()
  let s₂ := popOp s₁ i
  -- slot.child = self; self._set_slot(slot)
  let s₃ := s₂.setSlotHead k (some i)
  setSlotChain s₃ (s₃.n + 1) i (some k)

/-- `Card.flip(faceup)`. -/
def flipOp (s : GameSt) (i : Nat) (t : TURN) : GameSt :=
  match t with
  | TURN.SAME => s
  | TURN.TOGGLE => s.setFace i (!(s.cards i).faceup)
  | TURN.FACEUP => s.setFace i true
  | TURN.FACEDOWN => s.setFace i false

/-- `Slot.stack(card)`: place if the slot is empty, else stack onto the
tail. -/
def slotStackOp (s : GameSt) (k i : Nat) : GameSt :=
  match s.slots k with
  | none => placeOp s i k
  | some h => stackOp s i ((chain s s.n h).getLastD h)

/-- `Slot.deal(slots, faceup)`: repeatedly flip the source tail and
stack it onto the next target; warn and stop if the source is empty. -/
def dealOp (s : GameSt) (src : Nat) : List Nat → TURN → GameSt
  | [], _ => s
  | k :: rest, t =>
    match s.slots src with
    | none => s   -- log.warn("Trying to deal from empty slot"); return
    | some h =>
      let c := (chain s s.n h).getLastD h
      let s' := flipOp s c t
      let s'' := slotStackOp s' k c
      dealOp s'' src rest t

/-! ## Game layer (gamerules.py)

Slot indices follow creation order (`Game.create_slot` appends to
`self.slots`).

Klondike (grid (7, 3.2)): stock = 0, waste = 1, foundations = 2..5,
tableau = 6..12, so `m = 13`; 52 cards.

Backbone: stock = 0, waste = 1, foundations = 2..9, tableau = 10..17,
backbone = 18..35, block = 36, so `m = 37`; 104 cards (double deck). -/

def klondikeFoundations : List Nat := [2, 3, 4, 5]

def klondikeTableau : List Nat := [6, 7, 8, 9, 10, 11, 12]

def backboneFoundations : List Nat := [2, 3, 4, 5, 6, 7, 8, 9]

def backboneTableau : List Nat := [10, 11, 12, 13, 14, 15, 16, 17]

def backboneSlots : List Nat := (List.range 18).map (18 + ·)

/-- The `blockedby` references set up by `Backbone.__init__`:
`backbone[i].blockedby = backbone[i+1]` for `i = 0..16`, then
`backbone[8]` (slot 26) and `backbone[17]` (slot 35) point to the
block slot (36). -/
def backboneBlockedby (k : Nat) : Option Nat :=
  if 18 ≤ k ∧ k ≤ 35 then
    if k = 26 ∨ k = 35 then some 36 else some (k + 1)
  else none

/-- `COLORS` from cards.py: black (`true` here) for clubs (1) and
spades (4), red for diamonds (2) and hearts (3). -/
def colorOf (suit : Nat) : Bool := suit = 1 || suit = 4

/-- `Game.click` (base): flip a card and log the inverse; ignore slots. -/
def gameClick (s : GameSt) (t : Target) : GameSt :=
  match t with
  | .slot _ => s
  | .card i =>
    let s' := flipOp s i TURN.TOGGLE
    { s' with undocmds := s'.undocmds ++ [UndoEntry.single (UndoCmd.flip i)] }

/-- `Game.drop`: place on a slot target or stack on a card target, then
push the inverse command `Command(slot.stack, card)` where `slot` is
the card's slot before the move.  (With `card.slot = None` the source
would raise `AttributeError`; drop is documented to assume cards are
always in a slot, and that unreachable case is embedded as a no-op
on the log.) -/
def gameDrop (s : GameSt) (i : Nat) (t : Target) : GameSt :=
  let oldSlot := (s.cards i).slot
  let s' :=
    match t with
    | .slot k => placeOp s i k
    | .card j => stackOp s i j
  match oldSlot with
  | some a => { s' with undocmds := s'.undocmds ++ [UndoEntry.single (UndoCmd.slotStack a i)] }
  | none => s'

/-- `Game.droppable` (base): keep empty slots and tail cards.
(A `Target.slot k` stands for the game's `k`-th slot, so the
`target in self.slots` membership test becomes `k < s.m`.) -/
def baseDroppable (s : GameSt) (targets : List Target) : List Target :=
  targets.filter fun t =>
    match t with
    | .slot k => decide (k < s.m) && decide (s.slots k = none)
    | .card j => decide ((s.cards j).child = none)

/-- `Klondike.droppable`: the base filter, then the Klondike adjacency
rules (`rank` comparisons are Python `int` arithmetic, hence `Int`). -/
def klondikeDroppable (s : GameSt) (c : Nat) (ts : List Target) : List Target :=
  (baseDroppable s ts).filter fun t =>
    match t with
    | .slot k =>
      if k ∈ klondikeFoundations then
        decide ((s.cards c).child = none ∧ (s.cards c).rank = 1)
      else if k ∈ klondikeTableau then
        decide ((s.cards c).rank = 13)
      else false
    | .card j =>
      match (s.cards j).slot with
      | some sk =>
        if sk ∈ klondikeFoundations then
          decide ((s.cards c).child = none ∧ (s.cards j).suit = (s.cards c).suit ∧
            ((s.cards j).rank : Int) = ((s.cards c).rank : Int) - 1)
        else if sk ∈ klondikeTableau then
          decide ((s.cards j).faceup ∧ colorOf (s.cards j).suit ≠ colorOf (s.cards c).suit ∧
            ((s.cards j).rank : Int) = ((s.cards c).rank : Int) + 1)
        else false
      | none => false

/-- `Backbone.droppable`. -/
def backboneDroppable (s : GameSt) (c : Nat) (ts : List Target) : List Target :=
  (baseDroppable s ts).filter fun t =>
    match t with
    | .slot k =>
      if k ∈ backboneFoundations then
        decide ((s.cards c).child = none ∧ (s.cards c).rank = 1)
      else if k ∈ backboneTableau then
        decide (((s.cards c).slot ∉ (backboneSlots ++ [36]).map some) ∨ (s.cards c).rank = 13)
      else false
    | .card j =>
      match (s.cards j).slot with
      | some sk =>
        if sk ∈ backboneFoundations then
          decide ((s.cards c).child = none ∧ (s.cards j).child = none ∧
            (s.cards j).suit = (s.cards c).suit ∧
            ((s.cards j).rank : Int) = ((s.cards c).rank : Int) - 1)
        else if sk ∈ backboneTableau then
          decide ((s.cards j).child = none ∧ (s.cards j).suit = (s.cards c).suit ∧
            ((s.cards j).rank : Int) = ((s.cards c).rank : Int) + 1)
        else false
      | none => false

/-- `Klondike.draggable` is the base `Game.draggable`: any face-up card. -/
def klondikeDraggable (s : GameSt) (i : Nat) : Bool :=
  (s.cards i).faceup

/-- `Backbone.draggable`: not from stock, not from a foundation, and not
from a backbone slot whose `blockedby` slot is occupied. -/
def backboneDraggable (s : GameSt) (i : Nat) : Bool :=
  !(decide ((s.cards i).slot = some 0)
    || (match (s.cards i).slot with
        | some k => decide (k ∈ backboneFoundations)
        | none => false)
    || (match (s.cards i).slot with
        | some k =>
          decide (k ∈ backboneSlots) &&
            (match backboneBlockedby k with
             | some b => !decide (s.slots b = none)
             | none => false)
        | none => false))

/-- `Game.double_click_to_foundations`: send a draggable card to the
first foundation target accepted by `droppable`. -/
def dblToFoundations (s : GameSt)
    (draggable : GameSt → Nat → Bool)
    (dropp : GameSt → Nat → List Target → List Target)
    (foundations : List Nat) (t : Target) : GameSt :=
  match t with
  | .slot _ => s
  | .card i =>
    if (match (s.cards i).slot with
        | some k => decide (k ∈ foundations)
        | none => false) then s
    else if !draggable s i then s
    else
      let targets := foundations.map fun k =>
        match s.slots k with
        | none => Target.slot k
        | some h => Target.card ((chain s s.n h).getLastD h)
      match dropp s i targets with
      | [] => s
      | d :: _ => gameDrop s i d

/-- `Klondike.doubleclick`. -/
def klondikeDoubleclick (s : GameSt) (t : Target) : GameSt :=
  dblToFoundations s klondikeDraggable klondikeDroppable klondikeFoundations t

/-- `Backbone.doubleclick`. -/
def backboneDoubleclick (s : GameSt) (t : Target) : GameSt :=
  dblToFoundations s backboneDraggable backboneDroppable backboneFoundations t

/-- The `while not self.waste.is_empty` loop shared by `Klondike.click`
and `Backbone.click`: deal the waste back onto the stock face-down, one
card per iteration, collecting the inverse commands.  The fuel stands
for the absence of a bound in the source; in a well-formed state the
waste chain shrinks at every iteration so fuel `s.n + 1` is never
exhausted. -/
def recycleLoop (stock waste : Nat) : GameSt → List UndoCmd → Nat → GameSt × List UndoCmd
  | s, acc, 0 => (s, acc)
  | s, acc, fuel + 1 =>
    if s.slots waste = none then (s, acc)
    else
      recycleLoop stock waste (dealOp s waste [stock] TURN.FACEDOWN)
        (acc ++ [UndoCmd.deal stock [waste] TURN.FACEUP]) fuel

/-- `Klondike.click`. -/
def klondikeClick (s : GameSt) (t : Target) : GameSt :=
  match t with
  | .slot k =>
    if k < s.m then      -- item in self.slots
      if k = 0 then      -- item is self.stock
        let r := recycleLoop 0 1 s [] (s.n + 1)
        { r.1 with undocmds := r.1.undocmds ++ [UndoEntry.group r.2] }
      else s
    else s
  | .card i =>
    -- elif item.is_tail and not item.faceup:
    if (s.cards i).child = none && !(s.cards i).faceup then
      let r :=
        if (s.cards i).slot = some 0 then  -- item.slot is self.stock
          (dealOp s 0 [1] TURN.SAME, [UndoCmd.deal 1 [0] TURN.SAME])
        else (s, ([] : List UndoCmd))
      let s₂ := flipOp r.1 i TURN.TOGGLE
      { s₂ with undocmds := s₂.undocmds ++ [UndoEntry.group (r.2 ++ [UndoCmd.flip i])] }
    else s

/-- `Backbone.click`.  In the stock-slot redeal branch the source builds
an `undo` list (the per-card deals plus an `undo_redeals` closure) but
never appends it to `self.undocmds`, so the embedded gesture leaves the
undo log untouched there. -/
def backboneClick (s : GameSt) (t : Target) : GameSt :=
  match t with
  | .slot k =>
    if k < s.m then
      if k = 0 ∧ 0 < s.redeals then
        let r := recycleLoop 0 1 s [] (s.n + 1)
        { r.1 with redeals := r.1.redeals - 1 }
      else s
    else s
  | .card i =>
    if (s.cards i).slot = some 0 then
      let s₁ := dealOp s 0 [1] TURN.FACEUP
      { s₁ with undocmds := s₁.undocmds ++ [UndoEntry.single (UndoCmd.deal 1 [0] TURN.FACEDOWN)] }
    else s

/-- Execute one stored undo `Command`. -/
def execCmd (s : GameSt) : UndoCmd → GameSt
  | .slotStack k i => slotStackOp s k i
  | .deal src ts t => dealOp s src ts t
  | .flip i => flipOp s i TURN.TOGGLE     -- Command(item.flip): default faceup=TOGGLE
  | .undoRedeals => { s with redeals := s.redeals + 1 }

/-- `Game.undo`: pop the most recent entry and execute it (a list is
executed in reverse).  On an empty log the source raises `IndexError`
(callers must guard with `undoable()`); that case is embedded as the
identity. -/
def undoOp (s : GameSt) : GameSt :=
  match s.undocmds.getLast? with
  | none => s
  | some e =>
    let s₀ := { s with undocmds := s.undocmds.dropLast }
    match e with
    | .single c => execCmd s₀ c
    | .group cs => cs.reverse.foldl execCmd s₀

/-- `Game.undoable`. -/
def undoable (s : GameSt) : Prop := s.undocmds ≠ []

instance (s : GameSt) : Decidable (undoable s) := by
  unfold undoable; infer_instance

/-- The first loop of `Klondike.setup` (shared with `Backbone.setup`):
stack every deck card onto the stock, flipping each face down. -/
def setupStockLoop : GameSt → List Nat → GameSt
  | s, [] => s
  | s, c :: rest => setupStockLoop (flipOp (slotStackOp s 0 c) c TURN.FACEDOWN) rest

/-- `Klondike.setup`: the stock loop over `deck.cards`, then for each
tableau column `i` deal one card face-up to it and one face-down to
each later column. -/
def klondikeSetup (s : GameSt) : GameSt :=
  let s₁ := setupStockLoop s (List.range s.n)
  (List.range 7).foldl
    (fun s' i =>
      dealOp (dealOp s' 0 [6 + i] TURN.FACEUP) 0 (klondikeTableau.drop (i + 1)) TURN.FACEDOWN)
    s₁

/-- Build a state from explicit card/slot lists (indices beyond the
lists read as defaults, matching the cleanliness convention). -/
def GameSt.ofLists (cl : List CardSt) (sl : List (Option Nat))
    (u : List UndoEntry) (r : Nat) : GameSt :=
  { n := cl.length
    m := sl.length
    cards := fun i => cl.getD i default
    slots := fun k => sl.getD k none
    undocmds := u
    redeals := r }

/-- A Klondike card as created by `Deck.create_cards(doubledeck=False,
faceup=False)`: card `i` (deck order) has rank `i % 13 + 1` and suit
`i / 13 + 1`. -/
def klondikeCard (i : Nat) : CardSt :=
  { rank := i % 13 + 1, suit := i / 13 + 1
    parent := none, child := none, slot := none, faceup := false }

/-- A fully unstacked 52-card Klondike deck with arbitrary face-up
flags `f` and all 13 slots empty. -/
def unstackedKlondike (f : Nat → Bool) : GameSt :=
  { n := 52, m := 13
    cards := fun i => if i < 52 then { klondikeCard i with faceup := f i } else default
    slots := fun _ => none
    undocmds := []
    redeals := 0 }

/-! ## Drag protocol (`Card.start_drag` / `Card.drag`, cards.py)

`drag` reads positions, so this aspect is embedded separately.  A card
here has a rectangle position `pos`, the two drag fields (Python tuples,
`()` when no drag is in progress, embedded as `List Int`), and the
`child` link for the recursive drag of descendants. -/

structure DragSt where
  pos   : Nat → Int × Int
  off   : Nat → List Int       -- Card._drag_offset
  start : Nat → List Int       -- Card._drag_start_pos
  child : Nat → Option Nat

/-- `Card.drag(mouse_pos)`: move the card to the mouse position minus
the saved offset, then recursively drag the children.  The argument
tuple is evaluated before `move`, so indexing `_drag_offset` (empty
when no drag was started) raises `IndexError` before any mutation; a
raise is returned as the `true` flag together with the state reached so
far.  Fuel bounds the recursion over `child` (`true` on exhaustion,
unreachable for chains shorter than the fuel). -/
def dragOp : Nat → DragSt → Nat → Int × Int → DragSt × Bool
  | 0, d, _, _ => (d, true)
  | fuel + 1, d, i, mouse =>
    match (d.off i).get? 0 with
    | none => (d, true)            -- IndexError: tuple index out of range
    | some ox =>
      match (d.off i).get? 1 with
      | none => (d, true)
      | some oy =>
        let d' := { d with pos := fun x => if x = i then (mouse.1 - ox, mouse.2 - oy) else d.pos x }
        match d'.child i with
        | none => (d', false)
        | some c => dragOp fuel d' c mouse

/-! ## The `new_game` / `Deck.shuffle` call (claim C1)

`Game.new_game` (gamerules.py line 117) calls
`self.deck.shuffle(self.seed)`, while `Deck.shuffle` (cards.py line
118) is declared `def shuffle(self)`: one positional parameter
(`self`), no defaults, no `*args`.  Python binds a call without
`TypeError` only when the positional argument count is at most the
parameter count (or varargs absorb the excess) and at least the count
of non-default parameters. -/

/-- Positional parameters of `Deck.shuffle`, counting `self`. -/
def shuffleNumParams : Nat := 1

/-- Default-valued parameters of `Deck.shuffle`. -/
def shuffleNumDefaults : Nat := 0

/-- Does `Deck.shuffle` declare `*args`? -/
def shuffleHasVarArgs : Bool := false

/-- Positional arguments of the call `self.deck.shuffle(self.seed)` in
`Game.new_game`, counting the implicit `self` of the bound method. -/
def newGameShuffleNumArgs : Nat := 2

/-- Python's positional-binding rule for a function with `params`
positional parameters of which the last `defaults` have default values:
a call with `args` positional arguments binds without `TypeError` iff
`params - defaults ≤ args` and (`args ≤ params` or there is `*args`). -/
def pyCallBinds (params defaults args : Nat) (varargs : Bool) : Bool :=
  decide (params - defaults ≤ args) && (decide (args ≤ params) || varargs)

/-! ## Concrete states used by claim theorems and witnesses -/

/-- A card with no drag in progress: `_drag_offset` and
`_drag_start_pos` hold the empty tuple, as set by `Card.__init__` /
`Card.drop`. -/
def dragNoStart : DragSt :=
  { pos := fun _ => (0, 0), off := fun _ => [], start := fun _ => [], child := fun _ => none }

/-- A small Backbone position: cards 0 → 1 chained in the waste
(slot 1), one redeal left, empty undo log. -/
def c4State : GameSt :=
  GameSt.ofLists
    [⟨1, 1, none, some 1, some 1, true⟩, ⟨2, 1, some 0, none, some 1, true⟩]
    ([none, some 0] ++ List.replicate 35 none) [] 1

/-- The drop-acceptance predicate exactly as claim C5 words it: an
empty foundation slot only for a tail Ace; a foundation tail card only
with `c`'s suit and rank one below `c`; an empty tableau slot only for
a King; a face-up tableau tail card only with the opposite color and
rank one above `c`; nothing else. -/
def c5ClaimPred (s : GameSt) (c : Nat) : Target → Prop
  | .slot k =>
      (k ∈ klondikeFoundations ∧ s.slots k = none ∧ (s.cards c).child = none ∧ (s.cards c).rank = 1)
    ∨ (k ∈ klondikeTableau ∧ s.slots k = none ∧ (s.cards c).rank = 13)
  | .card j =>
      ((s.cards j).slot ∈ klondikeFoundations.map some ∧ (s.cards j).child = none ∧
         (s.cards c).child = none ∧ (s.cards j).suit = (s.cards c).suit ∧
         (s.cards j).rank + 1 = (s.cards c).rank)
    ∨ ((s.cards j).slot ∈ klondikeTableau.map some ∧ (s.cards j).child = none ∧
         (s.cards j).faceup = true ∧ colorOf (s.cards j).suit ≠ colorOf (s.cards c).suit ∧
         (s.cards j).rank = (s.cards c).rank + 1)

instance instDecC5 (s : GameSt) (c : Nat) (t : Target) : Decidable (c5ClaimPred s c t) := by
  cases t <;> (unfold c5ClaimPred; infer_instance)

/-- A small Klondike position for the C5 witness: card 0 is an Ace of
clubs tail, card 1 a two of clubs on tableau slot 6, foundation slot 2
empty. -/
def c5State : GameSt :=
  GameSt.ofLists
    [⟨1, 1, none, none, some 6, true⟩, ⟨2, 1, none, none, some 6, true⟩]
    [none, none, none, none, none, none, some 1, none, none, none, none, none, none]
    [] 0

def c5Targets : List Target :=
  [Target.slot 2, Target.card 1, Target.slot 0, Target.slot 7]

structure LinkEqv (s t : GameSt) : Prop where
  n : s.n = t.n
  m : s.m = t.m
  slots : s.slots = t.slots
  undocmds : s.undocmds = t.undocmds
  redeals : s.redeals = t.redeals
  rank : ∀ i, (s.cards i).rank = (t.cards i).rank
  suit : ∀ i, (s.cards i).suit = (t.cards i).suit
  parent : ∀ i, (s.cards i).parent = (t.cards i).parent
  child : ∀ i, (s.cards i).child = (t.cards i).child
  slotF : ∀ i, (s.cards i).slot = (t.cards i).slot

/-- Fields no topological operation ever changes (`Card.stack`,
`Card.pop`, `Card.place`, `Slot.stack`, `Slot.deal`, `Card.flip` touch
neither the log, the counters nor card identities). -/
structure CtrlEq (s t : GameSt) : Prop where
  n : t.n = s.n
  m : t.m = s.m
  undocmds : t.undocmds = s.undocmds
  redeals : t.redeals = s.redeals
  rank : ∀ x, (t.cards x).rank = (s.cards x).rank
  suit : ∀ x, (t.cards x).suit = (s.cards x).suit

/-- `CtrlEq` plus face flags: the frame of the pure link operations. -/
structure FrameEq (s t : GameSt) extends CtrlEq s t : Prop where
  faceup : ∀ x, (t.cards x).faceup = (s.cards x).faceup


/-- Well-formedness of the link graph: symmetry of parent/child (with
index bounds), cleanliness outside the deck, slot heads in range, and
acyclicity of `child` chains.  This is the inductive invariant of
claims C2/C3. -/
structure LinkWF (s : GameSt) : Prop where
  sym1 : ∀ i < s.n, ∀ j, (s.cards i).child = some j → j < s.n ∧ (s.cards j).parent = some i
  sym2 : ∀ i < s.n, ∀ p, (s.cards i).parent = some p → p < s.n ∧ (s.cards p).child = some i
  clean : ∀ x, s.n ≤ x → (s.cards x).child = none ∧ (s.cards x).parent = none
  headB : ∀ k h, s.slots k = some h → h < s.n
  acyc : ∀ i < s.n, i ∉ chain s s.n i

/-- Decidable well-formedness check for states built from lists. -/
def checkLinkWF (cl : List CardSt) (sl : List (Option Nat)) : Bool :=
  let s := GameSt.ofLists cl sl [] 0
  let n := cl.length
  ((List.range n).all fun i =>
     match (s.cards i).child with
     | none => true
     | some j => decide (j < n) && decide ((s.cards j).parent = some i)) &&
  ((List.range n).all fun i =>
     match (s.cards i).parent with
     | none => true
     | some p => decide (p < n) && decide ((s.cards p).child = some i)) &&
  (sl.all fun o =>
     match o with
     | none => true
     | some h => decide (h < n)) &&
  ((List.range n).all fun i => !(List.elem i (chain s n i)))

/-- A three-card stack 0 → 1 → 2 anchored at slot 0 (a well-formed
Klondike-style position).  Card 1 has a parent, a slot and a child, and
card 2 is its descendant. -/
def c8State : GameSt :=
  GameSt.ofLists
    [⟨13, 1, none, some 1, some 0, true⟩,
     ⟨12, 2, some 0, some 2, some 0, true⟩,
     ⟨11, 1, some 1, none, some 0, true⟩]
    [some 0] [] 0

def c8WitnessState : GameSt :=
  GameSt.ofLists
    [⟨1, 1, none, none, none, true⟩, ⟨2, 2, none, none, none, true⟩]
    [none] [] 0

/-- One public mutation of the card model: the `Card`/`Slot` primitives
(`stack`, `pop`, `place`, `Slot.stack`, `Slot.deal`, `flip`) and the
game gesture methods (`click`, `doubleclick`, `drop` of the base game,
Klondike and Backbone).  Card arguments denote cards of the game
(indices below `n`). -/
inductive Step : GameSt → GameSt → Prop where
  | cardStack (s : GameSt) (i j : Nat) (hi : i < s.n) (hj : j < s.n) : Step s (stackOp s i j)
  | cardPop (s : GameSt) (i : Nat) (hi : i < s.n) : Step s (popOp s i)
  | cardPlace (s : GameSt) (i k : Nat) (hi : i < s.n) : Step s (placeOp s i k)
  | slotStack (s : GameSt) (k i : Nat) (hi : i < s.n) : Step s (slotStackOp s k i)
  | slotDeal (s : GameSt) (src : Nat) (ts : List Nat) (turn : TURN) :
      Step s (dealOp s src ts turn)
  | cardFlip (s : GameSt) (i : Nat) (t : TURN) : Step s (flipOp s i t)
  | clickBase (s : GameSt) (t : Target) : Step s (gameClick s t)
  | clickKlondike (s : GameSt) (t : Target) : Step s (klondikeClick s t)
  | clickBackbone (s : GameSt) (t : Target) : Step s (backboneClick s t)
  | dropGesture (s : GameSt) (i : Nat) (t : Target) (hi : i < s.n)
      (ht : ∀ j, t = Target.card j → j < s.n) : Step s (gameDrop s i t)
  | dblKlondike (s : GameSt) (t : Target) (hi : ∀ i, t = Target.card i → i < s.n) :
      Step s (klondikeDoubleclick s t)
  | dblBackbone (s : GameSt) (t : Target) (hi : ∀ i, t = Target.card i → i < s.n) :
      Step s (backboneDoubleclick s t)

/-- A freshly constructed game: every card unlinked (as produced by
`Deck.create_cards`), every slot empty. -/
def Fresh (s : GameSt) : Prop :=
  (∀ i, (s.cards i).parent = none ∧ (s.cards i).child = none ∧ (s.cards i).slot = none) ∧
  (∀ k, s.slots k = none)

/-- Reachability by the public mutation operations. -/
def Reachable (s₀ s : GameSt) : Prop := Relation.ReflTransGen Step s₀ s

def c2FreshState : GameSt :=
  GameSt.ofLists
    [⟨1, 1, none, none, none, false⟩, ⟨2, 1, none, none, none, false⟩]
    [none, none] [] 0

/-- The `parent`/`child`/`slot` bookkeeping of a slot's card pile,
listed head-first: consecutive cards are `child`/`parent`-linked and
every listed card's `slot` field points at slot `k`.  (The last card's
`child` is unconstrained here; `SlotList` adds it.) -/
def ChainSeg (s : GameSt) (k : Nat) : List Nat → Prop
  | [] => True
  | [x] => (s.cards x).slot = some k
  | x :: y :: rest => (s.cards x).child = some y ∧ (s.cards y).parent = some x ∧
      (s.cards x).slot = some k ∧ ChainSeg s k (y :: rest)

instance instDecChainSeg (s : GameSt) (k : Nat) : (L : List Nat) → Decidable (ChainSeg s k L)
  | [] => isTrue trivial
  | [x] => by unfold ChainSeg; infer_instance
  | x :: y :: rest => by
    unfold ChainSeg
    have : Decidable (ChainSeg s k (y :: rest)) := instDecChainSeg s k (y :: rest)
    infer_instance

/-- The pile of slot `k` is exactly the cards `L`, head (bottom) first:
the slot's head reference, the head's absent `parent`, the internal
links, and the tail's `child = None`. -/
def SlotList (s : GameSt) (k : Nat) : List Nat → Prop
  | [] => s.slots k = none
  | h :: rest => s.slots k = some h ∧ (s.cards h).parent = none ∧
      ChainSeg s k (h :: rest) ∧ (s.cards (rest.getLastD h)).child = none

instance instDecSlotList (s : GameSt) (k : Nat) : (L : List Nat) → Decidable (SlotList s k L)
  | [] => by unfold SlotList; infer_instance
  | h :: rest => by unfold SlotList; infer_instance

/-- `Card.flip`'s effect on the face flag. -/
def turnApply : TURN → Bool → Bool
  | TURN.SAME, b => b
  | TURN.TOGGLE, b => !b
  | TURN.FACEUP, _ => true
  | TURN.FACEDOWN, _ => false

/-- The gesture protocol of the stock-cycle story: repeatedly click the
stock's tail card (at most `fuel` times, stopping if the stock is
empty). -/
def clickStockLoop : GameSt → Nat → GameSt
  | s, 0 => s
  | s, fuel + 1 =>
    match slotTail s 0 with
    | none => s
    | some c => clickStockLoop (klondikeClick s (Target.card c)) fuel

/-- A Klondike position whose stock holds a single face-up card and
whose waste is empty. -/
def c7FaceupState : GameSt :=
  GameSt.ofLists
    [⟨1, 1, none, none, some 0, true⟩]
    [some 0, none] [] 0

/-- Two face-down stock cards 0 → 1 (slot 0), empty waste (slot 1). -/
def c7WitnessState : GameSt :=
  GameSt.ofLists
    [⟨1, 1, none, some 1, some 0, false⟩,
     ⟨13, 2, some 0, none, some 0, false⟩]
    [some 0, none] [] 0

/-- A Backbone-style position: one stock card, one face-up waste card,
one redeal remaining, one entry already in the undo log. -/
def c10WitnessState : GameSt :=
  GameSt.ofLists
    [⟨5, 1, none, none, some 0, false⟩,
     ⟨7, 2, none, none, some 1, true⟩]
    [some 0, some 1] [UndoEntry.single (UndoCmd.flip 0)] 1

/-! # Theorems -/

@[simp] theorem GameSt.setCard_cards (s : GameSt) (i : Nat) (c : CardSt) (x : Nat) :
    (s.setCard i c).cards x = if x = i then c else s.cards x := rfl

@[simp] theorem GameSt.setCard_slots (s : GameSt) (i : Nat) (c : CardSt) :
    (s.setCard i c).slots = s.slots := rfl

@[simp] theorem GameSt.setCard_n (s : GameSt) (i : Nat) (c : CardSt) :
    (s.setCard i c).n = s.n := rfl

@[simp] theorem GameSt.setCard_m (s : GameSt) (i : Nat) (c : CardSt) :
    (s.setCard i c).m = s.m := rfl

@[simp] theorem GameSt.setCard_undocmds (s : GameSt) (i : Nat) (c : CardSt) :
    (s.setCard i c).undocmds = s.undocmds := rfl

@[simp] theorem GameSt.setCard_redeals (s : GameSt) (i : Nat) (c : CardSt) :
    (s.setCard i c).redeals = s.redeals := rfl

@[simp] theorem GameSt.setSlotHead_cards (s : GameSt) (k : Nat) (v : Option Nat) :
    (s.setSlotHead k v).cards = s.cards := rfl

@[simp] theorem GameSt.setSlotHead_slots (s : GameSt) (k : Nat) (v : Option Nat) (x : Nat) :
    (s.setSlotHead k v).slots x = if x = k then v else s.slots x := rfl

@[simp] theorem GameSt.setSlotHead_n (s : GameSt) (k : Nat) (v : Option Nat) :
    (s.setSlotHead k v).n = s.n := rfl

@[simp] theorem GameSt.setSlotHead_m (s : GameSt) (k : Nat) (v : Option Nat) :
    (s.setSlotHead k v).m = s.m := rfl

@[simp] theorem GameSt.setSlotHead_undocmds (s : GameSt) (k : Nat) (v : Option Nat) :
    (s.setSlotHead k v).undocmds = s.undocmds := rfl

@[simp] theorem GameSt.setSlotHead_redeals (s : GameSt) (k : Nat) (v : Option Nat) :
    (s.setSlotHead k v).redeals = s.redeals := rfl


/-! ## Frame, congruence and chain lemmas -/

theorem CardSt.extAllCard {c d : CardSt} (h1 : c.rank = d.rank) (h2 : c.suit = d.suit)
    (h3 : c.parent = d.parent) (h4 : c.child = d.child) (h5 : c.slot = d.slot)
    (h6 : c.faceup = d.faceup) : c = d := by
  cases c; cases d; simp_all

theorem GameSt.extAllGame {s t : GameSt} (h1 : s.n = t.n) (h2 : s.m = t.m)
    (h3 : ∀ i, s.cards i = t.cards i) (h4 : s.slots = t.slots)
    (h5 : s.undocmds = t.undocmds) (h6 : s.redeals = t.redeals) : s = t := by
  cases s; cases t
  simp only [GameSt.mk.injEq]
  exact ⟨h1, h2, funext h3, h4, h5, h6⟩

theorem setCard_linkEqv {s t : GameSt} (h : LinkEqv s t) (i : Nat) {c d : CardSt}
    (hr : c.rank = d.rank) (hs : c.suit = d.suit) (hp : c.parent = d.parent)
    (hc : c.child = d.child) (hsl : c.slot = d.slot) :
    LinkEqv (s.setCard i c) (t.setCard i d) := by
  constructor <;>
    first
      | exact h.n | exact h.m | exact h.slots | exact h.undocmds | exact h.redeals
      | (intro x
         by_cases hx : x = i <;>
           simp [hx, hr, hs, hp, hc, hsl, h.rank x, h.suit x, h.parent x, h.child x, h.slotF x])

theorem setSlotHead_linkEqv {s t : GameSt} (h : LinkEqv s t) (k : Nat) (v : Option Nat) :
    LinkEqv (s.setSlotHead k v) (t.setSlotHead k v) := by
  constructor <;>
    first
      | exact h.n | exact h.m | exact h.undocmds | exact h.redeals
      | (exact funext fun x => by simp [h.slots])
      | (intro x; simp [h.rank x, h.suit x, h.parent x, h.child x, h.slotF x])





theorem chain_congr {s t : GameSt} (h : ∀ i, (s.cards i).child = (t.cards i).child) :
    ∀ fuel x, chain s fuel x = chain t fuel x
  | 0, _ => rfl
  | fuel + 1, x => by
    unfold chain
    rw [h x]
    cases (t.cards x).child with
    | none => rfl
    | some j => exact congrArg (j :: ·) (chain_congr h fuel j)

@[simp] theorem setSlotField_child (s : GameSt) (i : Nat) (v : Option Nat) (x : Nat) :
    ((s.setSlotField i v).cards x).child = (s.cards x).child := by
  simp only [GameSt.setSlotField, GameSt.setCard_cards]
  split <;> simp_all

@[simp] theorem setSlotChain_zero (s : GameSt) (i : Nat) (v : Option Nat) :
    setSlotChain s 0 i v = s := rfl

theorem setSlotChain_succ (s : GameSt) (fuel : Nat) (i : Nat) (v : Option Nat) :
    setSlotChain s (fuel + 1) i v =
      (match ((s.setSlotField i v).cards i).child with
       | none => s.setSlotField i v
       | some j => setSlotChain (s.setSlotField i v) fuel j v) := rfl

theorem setSlotChain_one (s : GameSt) (i : Nat) (v : Option Nat) :
    setSlotChain s 1 i v = s.setSlotField i v := by
  rw [setSlotChain_succ]
  cases ((s.setSlotField i v).cards i).child <;> simp

theorem setSlotChain_cards : ∀ (fuel : Nat) (s : GameSt) (i : Nat) (v : Option Nat) (x : Nat),
    (setSlotChain s (fuel + 1) i v).cards x =
      if x ∈ i :: chain s fuel i then { s.cards x with slot := v } else s.cards x
  | 0, s, i, v, x => by
    rw [setSlotChain_one]
    simp only [chain, List.mem_singleton, GameSt.setSlotField, GameSt.setCard_cards]
    split <;> simp_all
  | fuel + 1, s, i, v, x => by
    rw [setSlotChain_succ]
    cases hc : ((s.setSlotField i v).cards i).child with
    | none =>
      have hc' : (s.cards i).child = none := by rw [← setSlotField_child s i v i]; exact hc
      rw [show chain s (fuel + 1) i = [] from by unfold chain; rw [hc']]
      simp only [List.mem_singleton, GameSt.setSlotField, GameSt.setCard_cards]
      split <;> simp_all
    | some j =>
      have hc' : (s.cards i).child = some j := by rw [← setSlotField_child s i v i]; exact hc
      rw [setSlotChain_cards fuel (s.setSlotField i v) j v x,
        chain_congr (fun y => setSlotField_child s i v y) fuel j,
        show chain s (fuel + 1) i = j :: chain s fuel j from by
          conv_lhs => unfold chain
          rw [hc']]
      by_cases hx : x = i
      · subst hx
        split <;>
          simp_all [GameSt.setSlotField, GameSt.setCard_cards, List.mem_cons]
      · simp only [GameSt.setSlotField, GameSt.setCard_cards, if_neg hx, List.mem_cons]
        have : (x = i ∨ x = j ∨ x ∈ chain s fuel j) ↔ (x = j ∨ x ∈ chain s fuel j) := by
          constructor
          · rintro (h | h) <;> [exact absurd h hx; exact h]
          · exact Or.inr
        exact (if_congr this.symm rfl rfl)



theorem setSlotChain_child (s : GameSt) (fuel i : Nat) (v : Option Nat) (x : Nat) :
    ((setSlotChain s fuel i v).cards x).child = (s.cards x).child := by
  cases fuel with
  | zero => rfl
  | succ fuel => rw [setSlotChain_cards]; split <;> rfl

theorem setSlotChain_parent (s : GameSt) (fuel i : Nat) (v : Option Nat) (x : Nat) :
    ((setSlotChain s fuel i v).cards x).parent = (s.cards x).parent := by
  cases fuel with
  | zero => rfl
  | succ fuel => rw [setSlotChain_cards]; split <;> rfl

theorem setSlotChain_rank (s : GameSt) (fuel i : Nat) (v : Option Nat) (x : Nat) :
    ((setSlotChain s fuel i v).cards x).rank = (s.cards x).rank := by
  cases fuel with
  | zero => rfl
  | succ fuel => rw [setSlotChain_cards]; split <;> rfl

theorem setSlotChain_suit (s : GameSt) (fuel i : Nat) (v : Option Nat) (x : Nat) :
    ((setSlotChain s fuel i v).cards x).suit = (s.cards x).suit := by
  cases fuel with
  | zero => rfl
  | succ fuel => rw [setSlotChain_cards]; split <;> rfl

theorem setSlotChain_faceup (s : GameSt) (fuel i : Nat) (v : Option Nat) (x : Nat) :
    ((setSlotChain s fuel i v).cards x).faceup = (s.cards x).faceup := by
  cases fuel with
  | zero => rfl
  | succ fuel => rw [setSlotChain_cards]; split <;> rfl

theorem setSlotChain_slotF (s : GameSt) (fuel i : Nat) (v : Option Nat) (x : Nat) :
    ((setSlotChain s (fuel + 1) i v).cards x).slot =
      if x ∈ i :: chain s fuel i then v else (s.cards x).slot := by
  rw [setSlotChain_cards]; split <;> rfl

theorem setSlotChain_n : ∀ (fuel : Nat) (s : GameSt) (i : Nat) (v : Option Nat),
    (setSlotChain s fuel i v).n = s.n
  | 0, _, _, _ => rfl
  | fuel + 1, s, i, v => by
    rw [setSlotChain_succ]
    cases ((s.setSlotField i v).cards i).child with
    | none => rfl
    | some j => rw [setSlotChain_n fuel]; rfl

theorem setSlotChain_m : ∀ (fuel : Nat) (s : GameSt) (i : Nat) (v : Option Nat),
    (setSlotChain s fuel i v).m = s.m
  | 0, _, _, _ => rfl
  | fuel + 1, s, i, v => by
    rw [setSlotChain_succ]
    cases ((s.setSlotField i v).cards i).child with
    | none => rfl
    | some j => rw [setSlotChain_m fuel]; rfl

theorem setSlotChain_slots : ∀ (fuel : Nat) (s : GameSt) (i : Nat) (v : Option Nat),
    (setSlotChain s fuel i v).slots = s.slots
  | 0, _, _, _ => rfl
  | fuel + 1, s, i, v => by
    rw [setSlotChain_succ]
    cases ((s.setSlotField i v).cards i).child with
    | none => rfl
    | some j => rw [setSlotChain_slots fuel]; rfl

theorem setSlotChain_undocmds : ∀ (fuel : Nat) (s : GameSt) (i : Nat) (v : Option Nat),
    (setSlotChain s fuel i v).undocmds = s.undocmds
  | 0, _, _, _ => rfl
  | fuel + 1, s, i, v => by
    rw [setSlotChain_succ]
    cases ((s.setSlotField i v).cards i).child with
    | none => rfl
    | some j => rw [setSlotChain_undocmds fuel]; rfl

theorem setSlotChain_redeals : ∀ (fuel : Nat) (s : GameSt) (i : Nat) (v : Option Nat),
    (setSlotChain s fuel i v).redeals = s.redeals
  | 0, _, _, _ => rfl
  | fuel + 1, s, i, v => by
    rw [setSlotChain_succ]
    cases ((s.setSlotField i v).cards i).child with
    | none => rfl
    | some j => rw [setSlotChain_redeals fuel]; rfl



/-- Closed form for the card array after `Card.pop`: the chain of `i`
loses its `slot`, the parent of `i` (when `i` points to one) loses its
`child`, and `i` loses its `parent`. -/
theorem popOp_cards (s : GameSt) (i x : Nat) :
    (popOp s i).cards x =
      (let c₂ := if x ∈ i :: chain s s.n i then { s.cards x with slot := none } else s.cards x
       let c₃ := if (s.cards i).parent = some x then { c₂ with child := none } else c₂
       if x = i then { c₃ with parent := none } else c₃) := by
  unfold popOp
  dsimp only
  have hs1 : ∀ (s₁ : GameSt), s₁.cards = s.cards → s₁.n = s.n →
      ((match ((setSlotChain s₁ (s₁.n + 1) i none).cards i).parent with
        | none => setSlotChain s₁ (s₁.n + 1) i none
        | some p => (setSlotChain s₁ (s₁.n + 1) i none).setChild p none).setParent i none).cards x =
      (let c₂ := if x ∈ i :: chain s s.n i then { s.cards x with slot := none } else s.cards x
       let c₃ := if (s.cards i).parent = some x then { c₂ with child := none } else c₂
       if x = i then { c₃ with parent := none } else c₃) := by
    intro s₁ hc hn
    have hchain : chain s₁ s.n i = chain s s.n i := chain_congr (fun y => by rw [hc]) s.n i
    have hcards : ∀ y, (setSlotChain s₁ (s₁.n + 1) i none).cards y =
        (if y ∈ i :: chain s s.n i then { s.cards y with slot := none } else s.cards y) := by
      intro y
      rw [hn, setSlotChain_cards, hchain, hc]
    have hpar : ((setSlotChain s₁ (s₁.n + 1) i none).cards i).parent = (s.cards i).parent := by
      rw [hcards i]; split <;> rfl
    rw [hpar]
    cases hp : (s.cards i).parent with
    | none =>
      by_cases hx : x = i <;>
        simp_all [GameSt.setParent, GameSt.setCard_cards, hcards, List.mem_cons]
    | some p =>
      by_cases hx : x = i <;> by_cases hpx : x = p <;>
        simp_all [GameSt.setParent, GameSt.setChild, GameSt.setCard_cards, hcards, List.mem_cons]
      all_goals
        first
          | (rw [if_neg (fun hh : p = i => hpx hh.symm)]; try simp)
          | (rw [if_neg (fun hh : p = x => hpx hh.symm)]; try simp)
  cases hsl : (s.cards i).slot with
  | none => exact hs1 s rfl rfl
  | some k =>
    by_cases hk : s.slots k = some i
    · simp only [hk, if_true]
      exact hs1 (s.setSlotHead k none) rfl rfl
    · simp only [hk, if_false]
      exact hs1 s rfl rfl



theorem popOp_child (s : GameSt) (i x : Nat) :
    ((popOp s i).cards x).child =
      if (s.cards i).parent = some x then none else (s.cards x).child := by
  rw [popOp_cards]
  dsimp only
  by_cases hx : x = i <;> by_cases hp : (s.cards i).parent = some x <;>
    simp [hx, hp] <;> split <;> rfl

theorem popOp_parent (s : GameSt) (i x : Nat) :
    ((popOp s i).cards x).parent =
      if x = i then none else (s.cards x).parent := by
  rw [popOp_cards]
  dsimp only
  by_cases hx : x = i <;> by_cases hp : (s.cards i).parent = some x <;>
    simp [hx, hp] <;> split <;> rfl

theorem popOp_slotF (s : GameSt) (i x : Nat) :
    ((popOp s i).cards x).slot =
      if x ∈ i :: chain s s.n i then none else (s.cards x).slot := by
  rw [popOp_cards]
  dsimp only
  by_cases hx : x = i <;> by_cases hp : (s.cards i).parent = some x <;>
    by_cases hm : x ∈ i :: chain s s.n i <;>
    simp_all [List.mem_cons]

theorem popOp_rank (s : GameSt) (i x : Nat) :
    ((popOp s i).cards x).rank = (s.cards x).rank := by
  rw [popOp_cards]
  dsimp only
  by_cases hx : x = i <;> by_cases hp : (s.cards i).parent = some x <;>
    simp [hx, hp] <;> split <;> rfl

theorem popOp_suit (s : GameSt) (i x : Nat) :
    ((popOp s i).cards x).suit = (s.cards x).suit := by
  rw [popOp_cards]
  dsimp only
  by_cases hx : x = i <;> by_cases hp : (s.cards i).parent = some x <;>
    simp [hx, hp] <;> split <;> rfl

theorem popOp_faceup (s : GameSt) (i x : Nat) :
    ((popOp s i).cards x).faceup = (s.cards x).faceup := by
  rw [popOp_cards]
  dsimp only
  by_cases hx : x = i <;> by_cases hp : (s.cards i).parent = some x <;>
    simp [hx, hp] <;> split <;> rfl

theorem popOp_slots (s : GameSt) (i : Nat) (k : Nat) :
    (popOp s i).slots k =
      if (s.cards i).slot = some k ∧ s.slots k = some i then none else s.slots k := by
  unfold popOp
  dsimp only
  set s₁ := (match (s.cards i).slot with
    | none => s
    | some k => if s.slots k = some i then s.setSlotHead k none else s) with hs₁
  have h1 : s₁.slots k =
      if (s.cards i).slot = some k ∧ s.slots k = some i then none else s.slots k := by
    rw [hs₁]
    cases hsl : (s.cards i).slot with
    | none => simp
    | some k' =>
      dsimp only
      by_cases hk : s.slots k' = some i
      · rw [if_pos hk]
        by_cases hkk : k' = k
        · subst hkk
          simp [hk, GameSt.setSlotHead]
        · rw [show (s.setSlotHead k' none).slots k = s.slots k from by
              simp [GameSt.setSlotHead, Ne.symm hkk],
            if_neg (fun hh : some k' = some k ∧ s.slots k = some i => hkk (Option.some.inj hh.1))]
      · rw [if_neg hk, if_neg (fun hh : some k' = some k ∧ s.slots k = some i => hk ((Option.some.inj hh.1) ▸ hh.2))]
  cases ((setSlotChain s₁ (s₁.n + 1) i none).cards i).parent <;>
    simp only [GameSt.setParent, GameSt.setChild, GameSt.setCard_slots, setSlotChain_slots] <;>
    exact h1

theorem popOp_n (s : GameSt) (i : Nat) : (popOp s i).n = s.n := by
  unfold popOp
  dsimp only
  set s₁ := (match (s.cards i).slot with
    | none => s
    | some k => if s.slots k = some i then s.setSlotHead k none else s) with hs₁
  have h1 : s₁.n = s.n := by
    rw [hs₁]
    cases (s.cards i).slot with
    | none => rfl
    | some k => dsimp only; split <;> rfl
  cases ((setSlotChain s₁ (s₁.n + 1) i none).cards i).parent <;>
    simp [GameSt.setParent, GameSt.setChild, setSlotChain_n, h1]

theorem popOp_m (s : GameSt) (i : Nat) : (popOp s i).m = s.m := by
  unfold popOp
  dsimp only
  set s₁ := (match (s.cards i).slot with
    | none => s
    | some k => if s.slots k = some i then s.setSlotHead k none else s) with hs₁
  have h1 : s₁.m = s.m := by
    rw [hs₁]
    cases (s.cards i).slot with
    | none => rfl
    | some k => dsimp only; split <;> rfl
  cases ((setSlotChain s₁ (s₁.n + 1) i none).cards i).parent <;>
    simp [GameSt.setParent, GameSt.setChild, setSlotChain_m, h1]

theorem popOp_undocmds (s : GameSt) (i : Nat) : (popOp s i).undocmds = s.undocmds := by
  unfold popOp
  dsimp only
  set s₁ := (match (s.cards i).slot with
    | none => s
    | some k => if s.slots k = some i then s.setSlotHead k none else s) with hs₁
  have h1 : s₁.undocmds = s.undocmds := by
    rw [hs₁]
    cases (s.cards i).slot with
    | none => rfl
    | some k => dsimp only; split <;> rfl
  cases ((setSlotChain s₁ (s₁.n + 1) i none).cards i).parent <;>
    simp [GameSt.setParent, GameSt.setChild, setSlotChain_undocmds, h1]

theorem popOp_redeals (s : GameSt) (i : Nat) : (popOp s i).redeals = s.redeals := by
  unfold popOp
  dsimp only
  set s₁ := (match (s.cards i).slot with
    | none => s
    | some k => if s.slots k = some i then s.setSlotHead k none else s) with hs₁
  have h1 : s₁.redeals = s.redeals := by
    rw [hs₁]
    cases (s.cards i).slot with
    | none => rfl
    | some k => dsimp only; split <;> rfl
  cases ((setSlotChain s₁ (s₁.n + 1) i none).cards i).parent <;>
    simp [GameSt.setParent, GameSt.setChild, setSlotChain_redeals, h1]



theorem FrameEq.refl (s : GameSt) : FrameEq s s :=
  ⟨⟨rfl, rfl, rfl, rfl, fun _ => rfl, fun _ => rfl⟩, fun _ => rfl⟩

theorem FrameEq.compFrame {s t u : GameSt} (h1 : FrameEq s t) (h2 : FrameEq t u) : FrameEq s u :=
  ⟨⟨h2.n.trans h1.n, h2.m.trans h1.m, h2.undocmds.trans h1.undocmds,
    h2.redeals.trans h1.redeals,
    fun x => (h2.rank x).trans (h1.rank x), fun x => (h2.suit x).trans (h1.suit x)⟩,
    fun x => (h2.faceup x).trans (h1.faceup x)⟩

theorem CtrlEq.compCtrl {s t u : GameSt} (h1 : CtrlEq s t) (h2 : CtrlEq t u) : CtrlEq s u :=
  ⟨h2.n.trans h1.n, h2.m.trans h1.m, h2.undocmds.trans h1.undocmds,
    h2.redeals.trans h1.redeals,
    fun x => (h2.rank x).trans (h1.rank x), fun x => (h2.suit x).trans (h1.suit x)⟩

theorem popOp_frame (s : GameSt) (i : Nat) : FrameEq s (popOp s i) :=
  ⟨⟨popOp_n s i, popOp_m s i, popOp_undocmds s i, popOp_redeals s i,
    popOp_rank s i, popOp_suit s i⟩, popOp_faceup s i⟩

theorem setSlotChain_frame (s : GameSt) (fuel i : Nat) (v : Option Nat) :
    FrameEq s (setSlotChain s fuel i v) :=
  ⟨⟨setSlotChain_n fuel s i v, setSlotChain_m fuel s i v,
    setSlotChain_undocmds fuel s i v, setSlotChain_redeals fuel s i v,
    setSlotChain_rank s fuel i v, setSlotChain_suit s fuel i v⟩,
    setSlotChain_faceup s fuel i v⟩

theorem setParent_frame (s : GameSt) (i : Nat) (v : Option Nat) :
    FrameEq s (s.setParent i v) := by
  refine ⟨⟨rfl, rfl, rfl, rfl, ?_, ?_⟩, ?_⟩ <;>
    (intro x
     simp only [GameSt.setParent, GameSt.setCard_cards]
     split <;> simp_all)

theorem setChild_frame (s : GameSt) (i : Nat) (v : Option Nat) :
    FrameEq s (s.setChild i v) := by
  refine ⟨⟨rfl, rfl, rfl, rfl, ?_, ?_⟩, ?_⟩ <;>
    (intro x
     simp only [GameSt.setChild, GameSt.setCard_cards]
     split <;> simp_all)

theorem setSlotHead_frame (s : GameSt) (k : Nat) (v : Option Nat) :
    FrameEq s (s.setSlotHead k v) :=
  ⟨⟨rfl, rfl, rfl, rfl, fun _ => rfl, fun _ => rfl⟩, fun _ => rfl⟩

theorem stackOp_frame (s : GameSt) (i j : Nat) : FrameEq s (stackOp s i j) := by
  unfold stackOp
  by_cases hij : i = j
  · rw [if_pos hij]; exact FrameEq.refl s
  · rw [if_neg hij]
    dsimp only
    set s₁ := if j ∈ chain s s.n i then popOp s j else s with h1
    have f1 : FrameEq s s₁ := by
      rw [h1]; split
      · exact popOp_frame s j
      · exact FrameEq.refl s
    have f2 : ∀ s₂ : GameSt, FrameEq s s₂ →
        FrameEq s (setSlotChain
          (((popOp s₂ i).setParent i (some j)).setChild j (some i))
          ((((popOp s₂ i).setParent i (some j)).setChild j (some i)).n + 1) i
          (((((popOp s₂ i).setParent i (some j)).setChild j (some i)).cards j).slot)) := by
      intro s₂ h₂
      exact ((((h₂.compFrame (popOp_frame s₂ i)).compFrame
        (setParent_frame _ i (some j))).compFrame
        (setChild_frame _ j (some i))).compFrame
        (setSlotChain_frame _ _ i _))
    cases hc : (s₁.cards j).child with
    | none => exact f2 s₁ f1
    | some d => exact f2 (popOp s₁ d) (f1.compFrame (popOp_frame s₁ d))

theorem placeOp_frame (s : GameSt) (i k : Nat) : FrameEq s (placeOp s i k) := by
  unfold placeOp
  dsimp only
  set s₁ := (match s.slots k with
    | none => s
    | some h => if h ≠ i then popOp s h else s) with h1
  have f1 : FrameEq s s₁ := by
    rw [h1]
    cases s.slots k with
    | none => exact FrameEq.refl s
    | some h =>
      dsimp only
      split
      · exact popOp_frame s h
      · exact FrameEq.refl s
  exact ((f1.compFrame (popOp_frame s₁ i)).compFrame
    (setSlotHead_frame _ k (some i))).compFrame (setSlotChain_frame _ _ i _)

theorem slotStackOp_frame (s : GameSt) (k i : Nat) : FrameEq s (slotStackOp s k i) := by
  unfold slotStackOp
  cases s.slots k with
  | none => exact placeOp_frame s i k
  | some h => exact stackOp_frame s i _

theorem flipOp_ctrl (s : GameSt) (i : Nat) (t : TURN) : CtrlEq s (flipOp s i t) := by
  cases t <;>
    (first
      | exact ⟨rfl, rfl, rfl, rfl, fun _ => rfl, fun _ => rfl⟩
      | (refine ⟨rfl, rfl, rfl, rfl, ?_, ?_⟩ <;>
          (intro x
           simp only [flipOp, GameSt.setFace, GameSt.setCard_cards]
           split <;> simp_all)))

theorem dealOp_ctrl (s : GameSt) (src : Nat) : ∀ (ts : List Nat) (t : TURN),
    CtrlEq s (dealOp s src ts t)
  | [], _ => ⟨rfl, rfl, rfl, rfl, fun _ => rfl, fun _ => rfl⟩
  | k :: rest, t => by
    unfold dealOp
    cases s.slots src with
    | none => exact ⟨rfl, rfl, rfl, rfl, fun _ => rfl, fun _ => rfl⟩
    | some h =>
      dsimp only
      exact (((flipOp_ctrl s _ t).compCtrl
        (slotStackOp_frame _ k _).toCtrlEq).compCtrl (dealOp_ctrl _ src rest t))



theorem LinkEqv.chainEq {s t : GameSt} (h : LinkEqv s t) (fuel x : Nat) :
    chain t fuel x = chain s fuel x :=
  chain_congr (fun y => (h.child y).symm) fuel x

theorem setSlotField_linkEqv {s t : GameSt} (h : LinkEqv s t) (i : Nat) (v : Option Nat) :
    LinkEqv (s.setSlotField i v) (t.setSlotField i v) :=
  setCard_linkEqv h i (h.rank i) (h.suit i) (h.parent i) (h.child i) rfl

theorem setSlotChain_linkEqv : ∀ (fuel : Nat) {s t : GameSt}, LinkEqv s t →
    ∀ (i : Nat) (v : Option Nat),
    LinkEqv (setSlotChain s fuel i v) (setSlotChain t fuel i v)
  | 0, _, _, h, _, _ => h
  | fuel + 1, s, t, h, i, v => by
    have h' := setSlotField_linkEqv h i v
    rw [setSlotChain_succ, setSlotChain_succ]
    rw [show ((t.setSlotField i v).cards i).child = ((s.setSlotField i v).cards i).child
      from (h'.child i).symm]
    cases hc : ((s.setSlotField i v).cards i).child with
    | none => exact h'
    | some j => exact setSlotChain_linkEqv fuel h' j v

theorem popOp_linkEqv {s t : GameSt} (h : LinkEqv s t) (i : Nat) :
    LinkEqv (popOp s i) (popOp t i) := by
  constructor
  · rw [popOp_n, popOp_n]; exact h.n
  · rw [popOp_m, popOp_m]; exact h.m
  · funext k
    rw [popOp_slots, popOp_slots, h.slotF i, h.slots]
  · rw [popOp_undocmds, popOp_undocmds]; exact h.undocmds
  · rw [popOp_redeals, popOp_redeals]; exact h.redeals
  · intro x; rw [popOp_rank, popOp_rank]; exact h.rank x
  · intro x; rw [popOp_suit, popOp_suit]; exact h.suit x
  · intro x; rw [popOp_parent, popOp_parent, h.parent x]
  · intro x; rw [popOp_child, popOp_child, h.parent i, h.child x]
  · intro x
    rw [popOp_slotF, popOp_slotF, h.chainEq, h.n, h.slotF x]

theorem setParent_linkEqv {s t : GameSt} (h : LinkEqv s t) (i : Nat) (v : Option Nat) :
    LinkEqv (s.setParent i v) (t.setParent i v) :=
  setCard_linkEqv h i (h.rank i) (h.suit i) rfl (h.child i) (h.slotF i)

theorem setChild_linkEqv {s t : GameSt} (h : LinkEqv s t) (i : Nat) (v : Option Nat) :
    LinkEqv (s.setChild i v) (t.setChild i v) :=
  setCard_linkEqv h i (h.rank i) (h.suit i) (h.parent i) rfl (h.slotF i)

theorem stackOp_linkEqv {s t : GameSt} (h : LinkEqv s t) (i j : Nat) :
    LinkEqv (stackOp s i j) (stackOp t i j) := by
  unfold stackOp
  by_cases hij : i = j
  · rw [if_pos hij, if_pos hij]; exact h
  · rw [if_neg hij, if_neg hij]
    dsimp only
    rw [show chain t t.n i = chain s s.n i from by rw [← h.n]; exact h.chainEq s.n i]
    have h₁ : LinkEqv (if j ∈ chain s s.n i then popOp s j else s)
        (if j ∈ chain s s.n i then popOp t j else t) := by
      split
      · exact popOp_linkEqv h j
      · exact h
    rw [show ((if j ∈ chain s s.n i then popOp t j else t).cards j).child
        = ((if j ∈ chain s s.n i then popOp s j else s).cards j).child from (h₁.child j).symm]
    have h₂ : ∀ s₂ t₂ : GameSt, LinkEqv s₂ t₂ →
        LinkEqv
          (setSlotChain (((popOp s₂ i).setParent i (some j)).setChild j (some i))
            ((((popOp s₂ i).setParent i (some j)).setChild j (some i)).n + 1) i
            (((((popOp s₂ i).setParent i (some j)).setChild j (some i)).cards j).slot))
          (setSlotChain (((popOp t₂ i).setParent i (some j)).setChild j (some i))
            ((((popOp t₂ i).setParent i (some j)).setChild j (some i)).n + 1) i
            (((((popOp t₂ i).setParent i (some j)).setChild j (some i)).cards j).slot)) := by
      intro s₂ t₂ h₂'
      have h₃ := setChild_linkEqv (setParent_linkEqv (popOp_linkEqv h₂' i) i (some j)) j (some i)
      rw [← h₃.n, ← h₃.slotF j]
      exact setSlotChain_linkEqv _ h₃ i _
    cases hc : ((if j ∈ chain s s.n i then popOp s j else s).cards j).child with
    | none => exact h₂ _ _ h₁
    | some d => exact h₂ _ _ (popOp_linkEqv h₁ d)

theorem placeOp_linkEqv {s t : GameSt} (h : LinkEqv s t) (i k : Nat) :
    LinkEqv (placeOp s i k) (placeOp t i k) := by
  unfold placeOp
  dsimp only
  rw [show t.slots k = s.slots k from by rw [h.slots]]
  have h₁ : LinkEqv
      (match s.slots k with
       | none => s
       | some hd => if hd ≠ i then popOp s hd else s)
      (match s.slots k with
       | none => t
       | some hd => if hd ≠ i then popOp t hd else t) := by
    cases s.slots k with
    | none => exact h
    | some hd =>
      dsimp only
      split
      · exact popOp_linkEqv h hd
      · exact h
  have h₂ := setSlotHead_linkEqv (popOp_linkEqv h₁ i) k (some i)
  rw [← h₂.n]
  exact setSlotChain_linkEqv _ h₂ i _

theorem slotStackOp_linkEqv {s t : GameSt} (h : LinkEqv s t) (k i : Nat) :
    LinkEqv (slotStackOp s k i) (slotStackOp t k i) := by
  unfold slotStackOp
  rw [show t.slots k = s.slots k from by rw [h.slots]]
  cases hk : s.slots k with
  | none => exact placeOp_linkEqv h i k
  | some hd =>
    dsimp only
    rw [show chain t t.n hd = chain s s.n hd from by rw [← h.n]; exact h.chainEq s.n hd]
    exact stackOp_linkEqv h i _

theorem flipOp_linkEqv {s t : GameSt} (h : LinkEqv s t) (i : Nat) (tr : TURN) :
    LinkEqv (flipOp s i tr) (flipOp t i tr) := by
  cases tr <;>
    first
      | exact h
      | exact setCard_linkEqv h i (h.rank i) (h.suit i) (h.parent i) (h.child i) (h.slotF i)



theorem flipOp_facedown_self (s : GameSt) (i : Nat) :
    ((flipOp s i TURN.FACEDOWN).cards i).faceup = false := by
  simp [flipOp, GameSt.setFace, GameSt.setCard_cards]

theorem flipOp_faceup_other (s : GameSt) (i x : Nat) (tr : TURN) (hx : x ≠ i) :
    ((flipOp s i tr).cards x).faceup = (s.cards x).faceup := by
  cases tr <;> simp [flipOp, GameSt.setFace, GameSt.setCard_cards, hx]

theorem setupStockLoop_congr : ∀ (L : List Nat) (s t : GameSt), LinkEqv s t →
    (∀ i, i ∉ L → (s.cards i).faceup = (t.cards i).faceup) →
    setupStockLoop s L = setupStockLoop t L
  | [], s, t, h, hf =>
    GameSt.extAllGame h.n h.m
      (fun i => CardSt.extAllCard (h.rank i) (h.suit i) (h.parent i) (h.child i) (h.slotF i)
        (hf i (List.not_mem_nil i)))
      h.slots h.undocmds h.redeals
  | c :: rest, s, t, h, hf => by
    unfold setupStockLoop
    apply setupStockLoop_congr rest
    · exact flipOp_linkEqv (slotStackOp_linkEqv h 0 c) c TURN.FACEDOWN
    · intro i hi
      by_cases hic : i = c
      · subst hic
        rw [flipOp_facedown_self, flipOp_facedown_self]
      · rw [flipOp_faceup_other _ _ _ _ hic, flipOp_faceup_other _ _ _ _ hic,
          (slotStackOp_frame s 0 c).faceup i, (slotStackOp_frame t 0 c).faceup i]
        exact hf i (by simp [hic, hi])

theorem unstackedKlondike_linkEqv (f g : Nat → Bool) :
    LinkEqv (unstackedKlondike f) (unstackedKlondike g) := by
  constructor <;>
    first
      | rfl
      | (intro i
         by_cases hi : i < 52 <;> simp [unstackedKlondike, hi])

theorem klondikeSetup_face_oblivious (f : Nat → Bool) :
    klondikeSetup (unstackedKlondike f) =
      klondikeSetup (unstackedKlondike (fun _ => false)) := by
  unfold klondikeSetup
  rw [setupStockLoop_congr (List.range (unstackedKlondike f).n) _ _
    (unstackedKlondike_linkEqv f (fun _ => false)) ?hfaces]
  · rfl
  case hfaces =>
    intro i hi
    have : ¬i < 52 := by
      intro hlt
      exact hi (List.mem_range.mpr hlt)
    simp [unstackedKlondike, this]


set_option maxRecDepth 1000000

/-- C6: after `Klondike.setup()` on a fully unstacked 52-card deck
(arbitrary face flags `f`), tableau column `i` (slot `6 + i`) holds
`i + 1` cards, all face-down except the face-up tail; the stock keeps
the remaining 24 cards face-down; the waste and the four foundations
(slots 1..5) are empty. -/
theorem C6_klondike_setup_layout (f : Nat → Bool) :
    (let R := klondikeSetup (unstackedKlondike f);
     (∀ i < 7, (slotCards R (6 + i)).length = i + 1 ∧
        (∀ c ∈ (slotCards R (6 + i)).dropLast, (R.cards c).faceup = false) ∧
        (∀ c ∈ (slotCards R (6 + i)).getLast?, (R.cards c).faceup = true)) ∧
     (slotCards R 0).length = 24 ∧
     (∀ c ∈ slotCards R 0, (R.cards c).faceup = false) ∧
     (∀ k < 6, 1 ≤ k → R.slots k = none)) := by
  rw [klondikeSetup_face_oblivious f]
  decide

/-! ## Claim C1: seeded shuffle determinism -/

/-- C1 (code bug): `Game.new_game(seed=s)` hands the seed to
`self.deck.shuffle(self.seed)`, but `Deck.shuffle` is declared
`def shuffle(self)` — two positional arguments against one parameter,
no defaults, no varargs — so for every seed the call raises `TypeError`
before any permutation happens, and `random.shuffle` inside the method
body would use the global generator rather than the seed anyway.  The
spec's deterministic seeded shuffle never runs. -/
theorem C1_new_game_shuffle_call_fails :
    pyCallBinds shuffleNumParams shuffleNumDefaults newGameShuffleNumArgs
      shuffleHasVarArgs = false := rfl

/-! ## Claim C9: drag without start_drag -/



/-- C9 counterexample: with no preceding `start_drag`, `Card.drag`
evaluates `self._drag_offset[0]` on the empty tuple and raises
`IndexError` (`true` flag) — it does not degrade to a logged no-op as
the claim states. -/
theorem C9_counterexample_drag_raises :
    (dragOp 5 dragNoStart 0 (3, 4)).2 = true := rfl

/-- C9 (amended): for every card with an empty saved drag offset (no
preceding `start_drag`), `drag(pos)` raises `IndexError` while
evaluating the move target, before any mutation: the state comes back
unchanged together with the raised flag (and no warning is logged —
only `start_drag` itself warns about protocol misuse). -/
theorem C9_drag_without_start_raises (d : DragSt) (i : Nat) (p : Int × Int)
    (fuel : Nat) (h : d.off i = []) :
    dragOp (fuel + 1) d i p = (d, true) := by
  simp [dragOp, h]

theorem C9_drag_without_start_raises_witness :
    dragNoStart.off 0 = [] ∧ dragOp 3 dragNoStart 0 (5, 7) = (dragNoStart, true) :=
  ⟨rfl, C9_drag_without_start_raises dragNoStart 0 (5, 7) 2 rfl⟩

/-! ## Claim C4: undo after a gesture -/



/-- C4 (code bug at `Backbone.click`): clicking the stock slot with
`redeals > 0` recycles the waste into the stock and decrements
`redeals` — a state change — but the `undo` command list built inside
the branch is never appended to `undocmds` (and the branch does not
`return True`), so the log is unchanged (here: empty) and the
subsequent `undo()` of the claim cannot restore the pre-gesture state
(on the empty log it raises `IndexError`, embedded as the identity):
the waste stays empty instead of regaining its card. -/
theorem C4_backbone_redeal_not_undoable :
    (backboneClick c4State (Target.slot 0)).undocmds = c4State.undocmds ∧
    c4State.undocmds = [] ∧
    c4State.redeals = 1 ∧ (backboneClick c4State (Target.slot 0)).redeals = 0 ∧
    c4State.slots 1 = some 0 ∧
    (backboneClick c4State (Target.slot 0)).slots 1 = none ∧
    (undoOp (backboneClick c4State (Target.slot 0))).slots 1 = none := by
  decide

/-! ## Claim C5: Klondike droppable characterization -/



/-- C5: `Klondike.droppable(card, targets)` returns exactly the members
of `targets`, in their original order, that satisfy the claim's
predicate.  The two hypotheses say the state has Klondike's 13 slots
and that slot targets denote slots of this game (the source would raise
`AttributeError` on a foreign slot object). -/
theorem C5_klondike_droppable_spec (s : GameSt) (c : Nat) (ts : List Target)
    (hm : s.m = 13) (hv : ∀ k, Target.slot k ∈ ts → k < 13) :
    klondikeDroppable s c ts = ts.filter (fun t => decide (c5ClaimPred s c t)) := by
  unfold klondikeDroppable baseDroppable
  rw [List.filter_filter]
  apply List.filter_congr
  intro t ht
  cases t with
  | slot k =>
    have hk : k < 13 := hv k ht
    rw [Bool.eq_iff_iff]
    simp only [c5ClaimPred, hm, Bool.and_eq_true, decide_eq_true_eq]
    interval_cases k <;>
      simp only [klondikeFoundations, klondikeTableau, List.mem_cons,
        List.mem_singleton, List.not_mem_nil] <;>
      norm_num <;> tauto
  | card j =>
    rw [Bool.eq_iff_iff]
    have hInt1 : (((s.cards j).rank : Int) = ((s.cards c).rank : Int) - 1) ↔
        ((s.cards j).rank + 1 = (s.cards c).rank) := by omega
    have hInt2 : (((s.cards j).rank : Int) = ((s.cards c).rank : Int) + 1) ↔
        ((s.cards j).rank = (s.cards c).rank + 1) := by omega
    rcases hsl : (s.cards j).slot with _ | sk
    · simp [c5ClaimPred, hsl]
    · have hFT : ∀ x ∈ klondikeFoundations, x ∉ klondikeTableau := by decide
      by_cases hF : sk ∈ klondikeFoundations
      · have hT : sk ∉ klondikeTableau := hFT sk hF
        simp only [c5ClaimPred, hsl, List.mem_map, Option.some.injEq]
        rw [if_pos hF]
        simp only [Bool.and_eq_true, decide_eq_true_eq, hInt1]
        constructor
        · rintro ⟨⟨h2, h3, h4⟩, h1⟩
          exact Or.inl ⟨⟨sk, hF, rfl⟩, h1, h2, h3, h4⟩
        · rintro (⟨⟨x, hx, hxe⟩, h1, h2, h3, h4⟩ | ⟨⟨x, hx, hxe⟩, _⟩)
          · exact ⟨⟨h2, h3, h4⟩, h1⟩
          · exact absurd (hxe ▸ hx) hT
      · by_cases hT : sk ∈ klondikeTableau
        · simp only [c5ClaimPred, hsl, List.mem_map, Option.some.injEq]
          rw [if_neg hF, if_pos hT]
          simp only [Bool.and_eq_true, decide_eq_true_eq, hInt2]
          constructor
          · rintro ⟨⟨h1, h2, h3⟩, h4⟩
            exact Or.inr ⟨⟨sk, hT, rfl⟩, h4, h1, h2, h3⟩
          · rintro (⟨⟨x, hx, hxe⟩, _⟩ | ⟨⟨x, hx, hxe⟩, h4, h1, h2, h3⟩)
            · exact absurd (hxe ▸ hx) hF
            · exact ⟨⟨h1, h2, h3⟩, h4⟩
        · simp only [c5ClaimPred, hsl, List.mem_map, Option.some.injEq]
          rw [if_neg hF, if_neg hT]
          simp only [Bool.false_and, Bool.false_eq_true, false_iff, decide_eq_true_eq]
          rintro (⟨⟨x, hx, hxe⟩, -⟩ | ⟨⟨x, hx, hxe⟩, -⟩)
          · exact hF (hxe ▸ hx)
          · exact hT (hxe ▸ hx)



theorem C5_klondike_droppable_spec_witness :
    c5State.m = 13 ∧ (∀ k, Target.slot k ∈ c5Targets → k < 13) ∧
    klondikeDroppable c5State 0 c5Targets =
      c5Targets.filter (fun t => decide (c5ClaimPred c5State 0 t)) := by
  have hv : ∀ k, Target.slot k ∈ c5Targets → k < 13 := by
    intro k hk
    simp only [c5Targets, List.mem_cons, List.not_mem_nil, or_false] at hk
    rcases hk with h | h | h | h
    · injection h with h'; omega
    · exact Target.noConfusion h
    · injection h with h'; omega
    · injection h with h'; omega
  exact ⟨rfl, hv, C5_klondike_droppable_spec c5State 0 c5Targets rfl hv⟩

end Pylitaire

namespace Pylitaire

theorem linkWF_ofLists {cl : List CardSt} {sl : List (Option Nat)}
    (u : List UndoEntry) (r : Nat) (h : checkLinkWF cl sl = true) :
    LinkWF (GameSt.ofLists cl sl u r) := by
  unfold checkLinkWF at h
  rw [Bool.and_eq_true, Bool.and_eq_true, Bool.and_eq_true] at h
  obtain ⟨⟨⟨h1, h2⟩, h3⟩, h4⟩ := h
  have hn : (GameSt.ofLists cl sl u r).n = cl.length := rfl
  have hcards : ∀ i, (GameSt.ofLists cl sl u r).cards i = cl.getD i default := fun _ => rfl
  have hchain : ∀ fuel i, chain (GameSt.ofLists cl sl u r) fuel i =
      chain (GameSt.ofLists cl sl [] 0) fuel i :=
    fun fuel i =>
      @chain_congr (GameSt.ofLists cl sl u r) (GameSt.ofLists cl sl [] 0) (fun _ => rfl) fuel i
  constructor
  · intro i hi j hc
    have := List.all_eq_true.mp h1 i (List.mem_range.mpr hi)
    rw [show ((GameSt.ofLists cl sl [] 0).cards i).child = some j from hc] at this
    simp only [Bool.and_eq_true, decide_eq_true_eq] at this
    exact this
  · intro i hi p hp
    have := List.all_eq_true.mp h2 i (List.mem_range.mpr hi)
    rw [show ((GameSt.ofLists cl sl [] 0).cards i).parent = some p from hp] at this
    simp only [Bool.and_eq_true, decide_eq_true_eq] at this
    exact this
  · intro x hx
    have hd : cl.getD x default = default := List.getD_eq_default cl default hx
    constructor <;>
      (rw [show (GameSt.ofLists cl sl u r).cards x = cl.getD x default from rfl, hd]; rfl)
  · intro k h' hk
    have hlen : k < sl.length := by
      by_contra hge
      rw [show (GameSt.ofLists cl sl u r).slots k = sl.getD k none from rfl,
        List.getD_eq_default sl none (Nat.le_of_not_lt hge)] at hk
      exact Option.noConfusion hk
    have hmem : sl[k] ∈ sl := List.getElem_mem hlen
    have := List.all_eq_true.mp h3 _ hmem
    rw [show sl[k] = some h' from by
      rw [← List.getD_eq_getElem sl none hlen]; exact hk] at this
    simpa using this
  · intro i hi
    have := List.all_eq_true.mp h4 i (List.mem_range.mpr hi)
    simp only [Bool.not_eq_true', ← Bool.not_eq_true] at this
    intro hmem
    rw [hn, hchain] at hmem
    exact this (List.elem_eq_true_of_mem hmem)

end Pylitaire

namespace Pylitaire

/-- C8 counterexample: on `c8State`, card 1 starts with parent 0, slot 0 and
child 2; after `stack(1, 2)` followed by `pop(1)` all three fields are `None`,
so the stack-then-pop round trip does not restore the original links. -/
theorem C8_counterexample_stack_pop :
    ((c8State.cards 1).parent = some 0 ∧ (c8State.cards 1).slot = some 0 ∧
      (c8State.cards 1).child = some 2) ∧
    (((popOp (stackOp c8State 1 2) 1).cards 1).parent = none ∧
      ((popOp (stackOp c8State 1 2) 1).cards 1).slot = none ∧
      ((popOp (stackOp c8State 1 2) 1).cards 1).child = none) := by
  decide

/-- C8 (amended): in a link-symmetric, acyclic state, if card `i` is a detached
head (no parent, no slot) and the target `j` is a different card not reachable
from `i` by child links, then `i.stack(j)` followed by `i.pop()` restores `i`'s
parent, slot and child and leaves `j` with no child. -/
theorem C8_stack_pop_restores (s : GameSt) (i j : Nat)
    (hwf : LinkWF s) (hij : i ≠ j) (hi : i < s.n) (hj : j < s.n)
    (hp : (s.cards i).parent = none) (hs : (s.cards i).slot = none)
    (hmem : j ∉ chain s s.n i) :
    (((popOp (stackOp s i j) i).cards i).parent = (s.cards i).parent ∧
     ((popOp (stackOp s i j) i).cards i).slot = (s.cards i).slot ∧
     ((popOp (stackOp s i j) i).cards i).child = (s.cards i).child) ∧
    ((popOp (stackOp s i j) i).cards j).child = none := by
  have main : ∀ s₂ : GameSt, (s₂.cards i).parent = none →
      (s₂.cards i).child = (s.cards i).child →
      (let S4 := ((popOp s₂ i).setParent i (some j)).setChild j (some i)
       let S5 := setSlotChain S4 (S4.n + 1) i ((S4.cards j).slot)
       (((popOp S5 i).cards i).parent = (s.cards i).parent ∧
        ((popOp S5 i).cards i).slot = (s.cards i).slot ∧
        ((popOp S5 i).cards i).child = (s.cards i).child) ∧
       ((popOp S5 i).cards j).child = none) := by
    intro s₂ h2p h2c
    dsimp only
    set S4 := ((popOp s₂ i).setParent i (some j)).setChild j (some i) with hS4
    set S5 := setSlotChain S4 (S4.n + 1) i ((S4.cards j).slot) with hS5
    have f1 : (S5.cards i).parent = some j := by
      rw [hS5, setSlotChain_parent, hS4]
      simp only [GameSt.setChild, GameSt.setParent, GameSt.setCard_cards,
        if_neg hij, if_pos rfl, if_true, eq_self_iff_true]
    have f2 : (S5.cards i).child = (s.cards i).child := by
      rw [hS5, setSlotChain_child, hS4]
      simp only [GameSt.setChild, GameSt.setParent, GameSt.setCard_cards,
        if_neg hij, if_pos rfl, if_true, eq_self_iff_true]
      rw [show ((popOp s₂ i).cards i).child = (s₂.cards i).child from by
        rw [popOp_child, h2p]; simp]
      exact h2c
    refine ⟨⟨?_, ?_, ?_⟩, ?_⟩
    · rw [popOp_parent, if_pos rfl, hp]
    · rw [popOp_slotF, if_pos (List.mem_cons_self i _), hs]
    · rw [popOp_child, f1, if_neg (by simp [Ne.symm hij]), f2]
    · rw [popOp_child, f1, if_pos rfl]
  unfold stackOp
  rw [if_neg hij]
  dsimp only
  rw [if_neg hmem]
  cases hc : (s.cards j).child with
  | none => exact main s hp rfl
  | some d =>
    refine main (popOp s d) ?_ ?_
    · rw [popOp_parent]
      split <;> [rfl; exact hp]
    · rw [popOp_child]
      have hpd : (s.cards d).parent = some j := (hwf.sym1 j hj d hc).2
      rw [hpd, if_neg (fun hh => hij (Option.some.inj hh).symm)]

end Pylitaire

namespace Pylitaire

theorem C8_stack_pop_restores_witness :
    (0 : Nat) ≠ 1 ∧ 0 < c8WitnessState.n ∧ 1 < c8WitnessState.n ∧
    (c8WitnessState.cards 0).parent = none ∧ (c8WitnessState.cards 0).slot = none ∧
    1 ∉ chain c8WitnessState c8WitnessState.n 0 ∧
    ((((popOp (stackOp c8WitnessState 0 1) 0).cards 0).parent = (c8WitnessState.cards 0).parent ∧
      ((popOp (stackOp c8WitnessState 0 1) 0).cards 0).slot = (c8WitnessState.cards 0).slot ∧
      ((popOp (stackOp c8WitnessState 0 1) 0).cards 0).child = (c8WitnessState.cards 0).child) ∧
     ((popOp (stackOp c8WitnessState 0 1) 0).cards 1).child = none) :=
  ⟨by decide, by decide, by decide, rfl, rfl, by decide,
   C8_stack_pop_restores c8WitnessState 0 1
     (linkWF_ofLists [] 0 (by decide)) (by decide) (by decide) (by decide) rfl rfl (by decide)⟩

end Pylitaire

namespace Pylitaire

theorem iterC_succ (s : GameSt) (k i : Nat) :
    iterC s (k + 1) i =
      (match (s.cards i).child with
       | none => none
       | some j => iterC s k j) := rfl

theorem iterC_one (s : GameSt) (i j : Nat) :
    iterC s 1 i = some j ↔ (s.cards i).child = some j := by
  rw [iterC_succ]
  cases (s.cards i).child <;> simp [iterC]

theorem iterC_add (s : GameSt) : ∀ (a b i : Nat),
    iterC s (a + b) i = (iterC s a i).bind (iterC s b)
  | 0, b, i => by simp [iterC, Option.bind]
  | a + 1, b, i => by
    rw [show a + 1 + b = (a + b) + 1 from by omega, iterC_succ, iterC_succ]
    cases (s.cards i).child with
    | none => rfl
    | some j => exact iterC_add s a b j

theorem mem_chain_iff_iterC (s : GameSt) : ∀ (fuel i j : Nat),
    j ∈ chain s fuel i ↔ ∃ k, 1 ≤ k ∧ k ≤ fuel ∧ iterC s k i = some j
  | 0, i, j => by
    simp only [chain, List.not_mem_nil, false_iff]
    rintro ⟨k, h1, h2, _⟩
    omega
  | fuel + 1, i, j => by
    unfold chain
    cases hc : (s.cards i).child with
    | none =>
      simp only [List.not_mem_nil, false_iff]
      rintro ⟨k, h1, h2, h3⟩
      cases k with
      | zero => omega
      | succ k' => rw [iterC_succ, hc] at h3; exact Option.noConfusion h3
    | some c =>
      rw [List.mem_cons, mem_chain_iff_iterC s fuel c j]
      constructor
      · rintro (rfl | ⟨k, h1, h2, h3⟩)
        · exact ⟨1, le_refl 1, by omega, by rw [iterC_succ, hc]; rfl⟩
        · exact ⟨k + 1, by omega, by omega, by rw [iterC_succ, hc]; exact h3⟩
      · rintro ⟨k, h1, h2, h3⟩
        cases k with
        | zero => omega
        | succ k' =>
          rw [iterC_succ, hc] at h3
          cases k' with
          | zero => exact Or.inl (Option.some.inj h3).symm
          | succ k'' => exact Or.inr ⟨k'' + 1, by omega, by omega, h3⟩

theorem iterC_lt {s : GameSt} (hwf : LinkWF s) : ∀ (k i j : Nat), i < s.n →
    iterC s k i = some j → j < s.n
  | 0, i, j, hi, h => by rw [show j = i from (Option.some.inj h).symm]; exact hi
  | k + 1, i, j, hi, h => by
    rw [iterC_succ] at h
    cases hc : (s.cards i).child with
    | none => rw [hc] at h; exact Option.noConfusion h
    | some c =>
      rw [hc] at h
      exact iterC_lt hwf k c j (hwf.sym1 i hi c hc).1 h

theorem chain_mem_lt {s : GameSt} (hwf : LinkWF s) (fuel i j : Nat) (hi : i < s.n)
    (h : j ∈ chain s fuel i) : j < s.n := by
  obtain ⟨k, -, -, h3⟩ := (mem_chain_iff_iterC s fuel i j).mp h
  exact iterC_lt hwf k i j hi h3

theorem acyc_iterC {s : GameSt} (hwf : LinkWF s) (x : Nat) (hx : x < s.n) :
    ∀ k, 1 ≤ k → k ≤ s.n → iterC s k x ≠ some x := by
  intro k h1 h2 h3
  exact hwf.acyc x hx ((mem_chain_iff_iterC s s.n x x).mpr ⟨k, h1, h2, h3⟩)

/-- Path transfer along child-edge deletion: if `t`'s child map only
removes edges of `s`, every iterate of `t` is an iterate of `s`. -/
theorem iterC_of_deletion {s t : GameSt}
    (hdel : ∀ x, (t.cards x).child = (s.cards x).child ∨ (t.cards x).child = none) :
    ∀ (k i j : Nat), iterC t k i = some j → iterC s k i = some j
  | 0, i, j, h => h
  | k + 1, i, j, h => by
    rw [iterC_succ] at h ⊢
    cases hc : (t.cards i).child with
    | none => rw [hc] at h; exact Option.noConfusion h
    | some c =>
      rw [hc] at h
      rcases hdel i with hd | hd
      · rw [← hd, hc]
        exact iterC_of_deletion hdel k c j h
      · rw [hd] at hc; exact Option.noConfusion hc

theorem popOp_deletion (s : GameSt) (i : Nat) :
    ∀ x, ((popOp s i).cards x).child = (s.cards x).child ∨ ((popOp s i).cards x).child = none := by
  intro x
  rw [popOp_child]
  split
  · exact Or.inr rfl
  · exact Or.inl rfl

/-- If no iterate of `x` (shorter than `m`) hits `j`, iterates of `x`
agree between two states whose child maps differ only at `j`. -/
theorem iterC_avoid {u u' : GameSt} (j : Nat)
    (hagree : ∀ y, y ≠ j → (u'.cards y).child = (u.cards y).child) :
    ∀ (m x : Nat), (∀ a, a < m → iterC u' a x ≠ some j) →
    iterC u' m x = iterC u m x
  | 0, x, _ => rfl
  | m + 1, x, havoid => by
    have hxj : x ≠ j := by
      intro hh
      exact havoid 0 (by omega) (by rw [hh]; rfl)
    rw [iterC_succ, iterC_succ, hagree x hxj]
    cases hc : (u.cards x).child with
    | none => rfl
    | some c =>
      exact iterC_avoid j hagree m c (fun a ha hiter => by
        refine havoid (a + 1) (by omega) ?_
        rw [iterC_succ, hagree x hxj, hc]
        exact hiter)

end Pylitaire

namespace Pylitaire

/-- Acyclicity after adding the single edge `j → i` (the relink step of
`Card.stack`) to an acyclic state with no path from `i` to `j`. -/
theorem relink_acyc {s₃ : GameSt} (i j : Nat) (hij : i ≠ j)
    (hacyc : ∀ x, x < s₃.n → ∀ k, 1 ≤ k → k ≤ s₃.n → iterC s₃ k x ≠ some x)
    (hnopath : ∀ k, 1 ≤ k → k ≤ s₃.n → iterC s₃ k i ≠ some j) :
    ∀ x, x < s₃.n → ∀ k, 1 ≤ k → k ≤ s₃.n →
      iterC ((s₃.setParent i (some j)).setChild j (some i)) k x ≠ some x := by
  set s₄ := (s₃.setParent i (some j)).setChild j (some i) with hS4
  have hagree : ∀ y, y ≠ j → (s₄.cards y).child = (s₃.cards y).child := by
    intro y hy
    rw [hS4]
    simp only [GameSt.setChild, GameSt.setParent, GameSt.setCard_cards, if_neg hy]
    split <;> simp_all
  have hedge : (s₄.cards j).child = some i := by
    rw [hS4]
    simp [GameSt.setChild, GameSt.setParent, GameSt.setCard_cards]
  have hnoj : ∀ k, 1 ≤ k → k ≤ s₃.n → iterC s₄ k j ≠ some j := by
    intro k
    induction k using Nat.strong_induction_on with
    | _ k ih =>
      intro hk1 hkn hcontra
      cases k with
      | zero => omega
      | succ k' =>
        rw [iterC_succ, hedge] at hcontra
        dsimp only at hcontra
        cases Nat.eq_zero_or_pos k' with
        | inl h0 =>
          subst h0
          exact hij (Option.some.inj hcontra)
        | inr hpos =>
          by_cases hhit : ∃ a, a < k' ∧ iterC s₄ a i = some j
          · obtain ⟨a, ha, hit⟩ := hhit
            have hdec : iterC s₄ (a + (k' - a)) i = some j := by
              rw [show a + (k' - a) = k' from by omega]
              exact hcontra
            rw [iterC_add, hit] at hdec
            dsimp only [Option.bind] at hdec
            exact ih (k' - a) (by omega) (by omega) (by omega) hdec
          · push_neg at hhit
            rw [iterC_avoid j hagree k' i (fun a ha hit => hhit a ha hit)] at hcontra
            exact hnopath k' (by omega) (by omega) hcontra
  intro x hx k hk1 hkn hcontra
  by_cases hhit : ∃ a, a < k ∧ iterC s₄ a x = some j
  · obtain ⟨a, ha, hit⟩ := hhit
    have hdec : iterC s₄ (a + (k - a)) x = some x := by
      rw [show a + (k - a) = k from by omega]
      exact hcontra
    rw [iterC_add, hit] at hdec
    dsimp only [Option.bind] at hdec
    have hcyc : iterC s₄ ((k - a) + a) j = some j := by
      rw [iterC_add, hdec]
      dsimp only [Option.bind]
      exact hit
    exact hnoj ((k - a) + a) (by omega) (by omega) hcyc
  · push_neg at hhit
    rw [iterC_avoid j hagree k x (fun a ha hit => hhit a ha hit)] at hcontra
    exact hacyc x hx k hk1 hkn hcontra

end Pylitaire

namespace Pylitaire

theorem linkWF_popOp {s : GameSt} (hwf : LinkWF s) (i : Nat) (hi : i < s.n) :
    LinkWF (popOp s i) := by
  constructor
  · -- sym1
    intro x hx y hc
    rw [popOp_n] at hx
    rw [popOp_child] at hc
    split at hc
    · exact Option.noConfusion hc
    · next hpar =>
      obtain ⟨hy, hpy⟩ := hwf.sym1 x hx y hc
      have hyi : y ≠ i := by
        intro hh
        subst hh
        exact hpar ((hwf.sym1 x hx y hc).2 ▸ rfl)
      rw [popOp_n, popOp_parent, if_neg hyi]
      exact ⟨hy, hpy⟩
  · -- sym2
    intro x hx p hp
    rw [popOp_n] at hx
    rw [popOp_parent] at hp
    split at hp
    · exact Option.noConfusion hp
    · next hxi =>
      obtain ⟨hpn, hcp⟩ := hwf.sym2 x hx p hp
      have hip : (s.cards i).parent ≠ some p := by
        intro hh
        obtain ⟨-, hcpi⟩ := hwf.sym2 i hi p hh
        rw [hcp] at hcpi
        exact hxi (Option.some.inj hcpi)
      rw [popOp_n, popOp_child, if_neg hip]
      exact ⟨hpn, hcp⟩
  · -- clean
    intro x hx
    rw [popOp_n] at hx
    have hcl := hwf.clean x hx
    constructor
    · rw [popOp_child]
      split
      · rfl
      · exact hcl.1
    · rw [popOp_parent]
      split
      · rfl
      · exact hcl.2
  · -- headB
    intro k h hk
    rw [popOp_slots] at hk
    rw [popOp_n]
    split at hk
    · exact Option.noConfusion hk
    · exact hwf.headB k h hk
  · -- acyc
    intro x hx hmem
    rw [popOp_n] at hx hmem
    obtain ⟨k, hk1, hk2, hk3⟩ := (mem_chain_iff_iterC _ s.n x x).mp hmem
    have := iterC_of_deletion (popOp_deletion s i) k x x hk3
    exact hwf.acyc x hx ((mem_chain_iff_iterC s s.n x x).mpr ⟨k, hk1, hk2, this⟩)

theorem linkWF_setSlotChain {s : GameSt} (hwf : LinkWF s) (fuel i : Nat) (v : Option Nat) :
    LinkWF (setSlotChain s fuel i v) := by
  have hch : ∀ x, ((setSlotChain s fuel i v).cards x).child = (s.cards x).child :=
    setSlotChain_child s fuel i v
  have hpa : ∀ x, ((setSlotChain s fuel i v).cards x).parent = (s.cards x).parent :=
    setSlotChain_parent s fuel i v
  have hn : (setSlotChain s fuel i v).n = s.n := setSlotChain_n fuel s i v
  have hsl : (setSlotChain s fuel i v).slots = s.slots := setSlotChain_slots fuel s i v
  constructor
  · intro x hx y hc
    rw [hn] at hx ⊢
    rw [hch] at hc
    rw [hpa]
    exact hwf.sym1 x hx y hc
  · intro x hx p hp
    rw [hn] at hx ⊢
    rw [hpa] at hp
    rw [hch]
    exact hwf.sym2 x hx p hp
  · intro x hx
    rw [hn] at hx
    rw [hch, hpa]
    exact hwf.clean x hx
  · intro k h hk
    rw [hsl] at hk
    rw [hn]
    exact hwf.headB k h hk
  · intro x hx hmem
    rw [hn] at hx hmem
    rw [chain_congr hch s.n x] at hmem
    exact hwf.acyc x hx hmem

theorem linkWF_setSlotHead {s : GameSt} (hwf : LinkWF s) (k : Nat) (v : Option Nat)
    (hv : ∀ h, v = some h → h < s.n) : LinkWF (s.setSlotHead k v) := by
  constructor
  · exact hwf.sym1
  · exact hwf.sym2
  · exact hwf.clean
  · intro k' h hk
    rw [GameSt.setSlotHead_slots] at hk
    split at hk
    · exact hv h hk
    · exact hwf.headB k' h hk
  · intro x hx hmem
    rw [show chain (s.setSlotHead k v) (s.setSlotHead k v).n x = chain s s.n x from
      @chain_congr (s.setSlotHead k v) s (fun _ => rfl) s.n x] at hmem
    exact hwf.acyc x hx hmem

theorem linkWF_flipOp {s : GameSt} (hwf : LinkWF s) (i : Nat) (t : TURN) :
    LinkWF (flipOp s i t) := by
  have hcards : ∀ x, ((flipOp s i t).cards x).child = (s.cards x).child ∧
      ((flipOp s i t).cards x).parent = (s.cards x).parent := by
    intro x
    cases t <;>
      (constructor <;>
        (simp only [flipOp, GameSt.setFace, GameSt.setCard_cards]
         try rfl
         try (split <;> simp_all)))
  have hn : (flipOp s i t).n = s.n := by cases t <;> rfl
  have hsl : (flipOp s i t).slots = s.slots := by cases t <;> rfl
  constructor
  · intro x hx y hc
    rw [hn] at hx ⊢
    rw [(hcards x).1] at hc
    rw [(hcards y).2]
    exact hwf.sym1 x hx y hc
  · intro x hx p hp
    rw [hn] at hx ⊢
    rw [(hcards x).2] at hp
    rw [(hcards p).1]
    exact hwf.sym2 x hx p hp
  · intro x hx
    rw [hn] at hx
    rw [(hcards x).1, (hcards x).2]
    exact hwf.clean x hx
  · intro k h hk
    rw [hsl] at hk
    rw [hn]
    exact hwf.headB k h hk
  · intro x hx hmem
    rw [hn] at hx hmem
    rw [chain_congr (fun y => (hcards y).1) s.n x] at hmem
    exact hwf.acyc x hx hmem

end Pylitaire

namespace Pylitaire

/-- Symmetry and the rest of `LinkWF` for the relink step of
`Card.stack`, given the prepared state `s₃` (parent of `i` cleared,
child of `j` cleared, no path from `i` to `j`). -/
theorem linkWF_relink {s₃ : GameSt} (hwf₃ : LinkWF s₃) (i j : Nat)
    (hi : i < s₃.n) (hj : j < s₃.n) (hij : i ≠ j)
    (hA : (s₃.cards j).child = none) (hB : (s₃.cards i).parent = none)
    (hNP : ∀ k, 1 ≤ k → k ≤ s₃.n → iterC s₃ k i ≠ some j) :
    LinkWF ((s₃.setParent i (some j)).setChild j (some i)) := by
  set s₄ := (s₃.setParent i (some j)).setChild j (some i) with hS4
  have hchild₄ : ∀ x, (s₄.cards x).child = if x = j then some i else (s₃.cards x).child := by
    intro x
    rw [hS4]
    simp only [GameSt.setChild, GameSt.setParent, GameSt.setCard_cards]
    by_cases hx : x = j
    · simp [hx]
    · rw [if_neg hx, if_neg hx]
      split <;> simp_all
  have hparent₄ : ∀ x, (s₄.cards x).parent = if x = i then some j else (s₃.cards x).parent := by
    intro x
    rw [hS4]
    simp only [GameSt.setChild, GameSt.setParent, GameSt.setCard_cards]
    by_cases hx : x = j
    · rw [if_pos hx, if_neg (show ¬j = i from fun hh => hij hh.symm),
        if_neg (show ¬x = i by omega), hx]
    · rw [if_neg hx]
      split <;> simp_all
  have hn₄ : s₄.n = s₃.n := rfl
  have hslots₄ : s₄.slots = s₃.slots := rfl
  constructor
  · -- sym1
    intro x hx y hc
    rw [hn₄] at hx ⊢
    rw [hchild₄] at hc
    split at hc
    · next hxj =>
      rw [show y = i from (Option.some.inj hc).symm, hparent₄, if_pos rfl]
      exact ⟨hi, by rw [hxj]⟩
    · obtain ⟨hy, hpy⟩ := hwf₃.sym1 x hx y hc
      have hyi : y ≠ i := by
        intro hh
        rw [hh, hB] at hpy
        exact Option.noConfusion hpy
      rw [hparent₄, if_neg hyi]
      exact ⟨hy, hpy⟩
  · -- sym2
    intro x hx p hp
    rw [hn₄] at hx ⊢
    rw [hparent₄] at hp
    split at hp
    · next hxi =>
      rw [show p = j from (Option.some.inj hp).symm, hchild₄, if_pos rfl]
      exact ⟨hj, by rw [hxi]⟩
    · obtain ⟨hpn, hcp⟩ := hwf₃.sym2 x hx p hp
      have hpj : p ≠ j := by
        intro hh
        rw [hh, hA] at hcp
        exact Option.noConfusion hcp
      rw [hchild₄, if_neg hpj]
      exact ⟨hpn, hcp⟩
  · -- clean
    intro x hx
    rw [hn₄] at hx
    have hxi : x ≠ i := fun hh => absurd hi (by omega)
    have hxj : x ≠ j := fun hh => absurd hj (by omega)
    rw [hchild₄, if_neg hxj, hparent₄, if_neg hxi]
    exact hwf₃.clean x hx
  · -- headB
    intro k h hk
    rw [hslots₄] at hk
    rw [hn₄]
    exact hwf₃.headB k h hk
  · -- acyc
    intro x hx hmem
    rw [hn₄] at hx hmem
    obtain ⟨k, hk1, hk2, hk3⟩ := (mem_chain_iff_iterC _ s₃.n x x).mp hmem
    exact relink_acyc i j hij
      (fun x' hx' k' h1 h2 => acyc_iterC hwf₃ x' hx' k' h1 h2) hNP x hx k hk1 hk2 hk3

theorem linkWF_stackOp {s : GameSt} (hwf : LinkWF s) (i j : Nat)
    (hi : i < s.n) (hj : j < s.n) : LinkWF (stackOp s i j) := by
  unfold stackOp
  by_cases hij : i = j
  · rw [if_pos hij]; exact hwf
  · rw [if_neg hij]
    dsimp only
    -- generic treatment of the tail of the operation
    have main : ∀ s₂ : GameSt, LinkWF s₂ → s₂.n = s.n →
        (s₂.cards j).child = none →
        (∀ k, 1 ≤ k → k ≤ s.n → iterC s₂ k i ≠ some j) →
        LinkWF (setSlotChain
          (((popOp s₂ i).setParent i (some j)).setChild j (some i))
          ((((popOp s₂ i).setParent i (some j)).setChild j (some i)).n + 1) i
          (((((popOp s₂ i).setParent i (some j)).setChild j (some i)).cards j).slot)) := by
      intro s₂ hwf₂ hn₂ hA₂ hNP₂
      have hi₂ : i < s₂.n := by omega
      have hj₂ : j < s₂.n := by omega
      have hwf₃ := linkWF_popOp hwf₂ i hi₂
      have hn₃ : (popOp s₂ i).n = s.n := by rw [popOp_n]; exact hn₂
      refine linkWF_setSlotChain (linkWF_relink hwf₃ i j ?_ ?_ hij ?_ ?_ ?_) _ i _
      · omega
      · omega
      · rw [popOp_child]
        split
        · rfl
        · exact hA₂
      · rw [popOp_parent, if_pos rfl]
      · intro k hk1 hk2 hiter
        rw [hn₃] at hk2
        refine hNP₂ k hk1 hk2 (iterC_of_deletion (popOp_deletion s₂ i) k i j hiter)
    have lastEdge : ∀ (u : GameSt), (∀ x, (u.cards x).child ≠ some j) →
        ∀ k, 1 ≤ k → iterC u k i ≠ some j := by
      intro u hnp k hk1 hiter
      obtain ⟨w, hw1, hw2⟩ : ∃ w, iterC u (k - 1) i = some w ∧ iterC u 1 w = some j := by
        rw [show k = (k - 1) + 1 from by omega, iterC_add] at hiter
        cases hwv : iterC u (k - 1) i with
        | none => rw [hwv] at hiter; exact Option.noConfusion hiter
        | some w => rw [hwv] at hiter; exact ⟨w, rfl, hiter⟩
      exact hnp w ((iterC_one u w j).mp hw2)
    by_cases hmem : j ∈ chain s s.n i
    · rw [if_pos hmem]
      have hnopred₁ : ∀ x, ((popOp s j).cards x).child ≠ some j := by
        intro x hc
        rw [popOp_child] at hc
        split at hc
        · exact Option.noConfusion hc
        · next hnp =>
          have hx : x < s.n := by
            by_contra hge
            rw [(hwf.clean x (Nat.le_of_not_lt hge)).1] at hc
            exact Option.noConfusion hc
          exact hnp (hwf.sym1 x hx j hc).2
      have hwf₁ := linkWF_popOp hwf j hj
      have hn₁ : (popOp s j).n = s.n := popOp_n s j
      cases hc : ((popOp s j).cards j).child with
      | none =>
        exact main (popOp s j) hwf₁ hn₁ hc
          (fun k hk1 _ => lastEdge (popOp s j) hnopred₁ k hk1)
      | some d =>
        have hd : d < s.n := by
          have := (hwf₁.sym1 j (by omega) d hc).1
          omega
        have hnopred₂ : ∀ x, ((popOp (popOp s j) d).cards x).child ≠ some j := by
          intro x hc'
          rcases popOp_deletion (popOp s j) d x with hh | hh
          · exact hnopred₁ x (hh ▸ hc')
          · rw [hh] at hc'; exact Option.noConfusion hc'
        refine main (popOp (popOp s j) d) (linkWF_popOp hwf₁ d (by omega))
          (by rw [popOp_n, hn₁]) ?_ (fun k hk1 _ => lastEdge _ hnopred₂ k hk1)
        rw [popOp_child, (hwf₁.sym1 j (by omega) d hc).2, if_pos rfl]
    · rw [if_neg hmem]
      cases hc : (s.cards j).child with
      | none =>
        refine main s hwf rfl hc ?_
        intro k hk1 hk2 hiter
        exact absurd ((mem_chain_iff_iterC s s.n i j).mpr ⟨k, hk1, hk2, hiter⟩) hmem
      | some d =>
        have hd : d < s.n := (hwf.sym1 j hj d hc).1
        have hwf₂ := linkWF_popOp hwf d hd
        refine main (popOp s d) hwf₂ (popOp_n s d) ?_ ?_
        · rw [popOp_child, (hwf.sym1 j hj d hc).2, if_pos rfl]
        · intro k hk1 hk2 hiter
          exact absurd ((mem_chain_iff_iterC s s.n i j).mpr
            ⟨k, hk1, hk2, iterC_of_deletion (popOp_deletion s d) k i j hiter⟩) hmem

end Pylitaire

namespace Pylitaire

theorem linkWF_placeOp {s : GameSt} (hwf : LinkWF s) (i k : Nat) (hi : i < s.n) :
    LinkWF (placeOp s i k) := by
  unfold placeOp
  dsimp only
  have main : ∀ s₁ : GameSt, LinkWF s₁ → s₁.n = s.n →
      LinkWF (setSlotChain ((popOp s₁ i).setSlotHead k (some i))
        (((popOp s₁ i).setSlotHead k (some i)).n + 1) i (some k)) := by
    intro s₁ hwf₁ hn₁
    refine linkWF_setSlotChain (linkWF_setSlotHead (linkWF_popOp hwf₁ i (by omega)) k (some i) ?_) _ i _
    intro h hh
    have hhi : h = i := (Option.some.inj hh).symm
    rw [hhi, popOp_n]
    omega
  cases hk : s.slots k with
  | none => exact main s hwf rfl
  | some h =>
    dsimp only
    split
    · exact main (popOp s h) (linkWF_popOp hwf h (hwf.headB k h hk)) (popOp_n s h)
    · exact main s hwf rfl

theorem chain_tail_lt {s : GameSt} (hwf : LinkWF s) (h : Nat) (hh : h < s.n) :
    (chain s s.n h).getLastD h < s.n := by
  cases hc : chain s s.n h with
  | nil => simpa using hh
  | cons y ys =>
    rw [show (y :: ys).getLastD h = (y :: ys).getLast (by simp) from by
      rw [List.getLastD_eq_getLast?, List.getLast?_eq_getLast _ (by simp)]
      rfl]
    refine chain_mem_lt hwf s.n h _ hh ?_
    rw [hc]
    exact List.getLast_mem _

theorem linkWF_slotStackOp {s : GameSt} (hwf : LinkWF s) (k i : Nat) (hi : i < s.n) :
    LinkWF (slotStackOp s k i) := by
  unfold slotStackOp
  cases hk : s.slots k with
  | none => exact linkWF_placeOp hwf i k hi
  | some h =>
    dsimp only
    exact linkWF_stackOp hwf i _ hi (chain_tail_lt hwf h (hwf.headB k h hk))

theorem linkWF_dealOp {s : GameSt} (hwf : LinkWF s) (src : Nat) :
    ∀ (ts : List Nat) (turn : TURN), LinkWF (dealOp s src ts turn)
  | [], _ => hwf
  | k :: rest, turn => by
    unfold dealOp
    cases hk : s.slots src with
    | none => exact hwf
    | some h =>
      dsimp only
      have hh : h < s.n := hwf.headB src h hk
      have htail : (chain s s.n h).getLastD h < s.n := chain_tail_lt hwf h hh
      have hwf₁ := linkWF_flipOp hwf ((chain s s.n h).getLastD h) turn
      have hn₁ : (flipOp s ((chain s s.n h).getLastD h) turn).n = s.n := by
        cases turn <;> rfl
      have hwf₂ := linkWF_slotStackOp hwf₁ k ((chain s s.n h).getLastD h) (by omega)
      have hn₂ := (slotStackOp_frame (flipOp s ((chain s s.n h).getLastD h) turn) k
        ((chain s s.n h).getLastD h)).n
      exact linkWF_dealOp hwf₂ src rest turn

theorem linkWF_setUndo {s : GameSt} (hwf : LinkWF s) (u : List UndoEntry) :
    LinkWF { s with undocmds := u } :=
  ⟨hwf.sym1, hwf.sym2, hwf.clean, hwf.headB, fun i hi hm =>
    hwf.acyc i hi (by rw [show chain s s.n i =
      chain { s with undocmds := u } s.n i from
      @chain_congr s { s with undocmds := u } (fun _ => rfl) s.n i]; exact hm)⟩

theorem linkWF_setRedeals {s : GameSt} (hwf : LinkWF s) (r : Nat) :
    LinkWF { s with redeals := r } :=
  ⟨hwf.sym1, hwf.sym2, hwf.clean, hwf.headB, fun i hi hm =>
    hwf.acyc i hi (by rw [show chain s s.n i =
      chain { s with redeals := r } s.n i from
      @chain_congr s { s with redeals := r } (fun _ => rfl) s.n i]; exact hm)⟩

theorem linkWF_recycleLoop {stock waste : Nat} :
    ∀ (fuel : Nat) (s : GameSt) (acc : List UndoCmd), LinkWF s →
      LinkWF (recycleLoop stock waste s acc fuel).1
  | 0, s, acc, hwf => hwf
  | fuel + 1, s, acc, hwf => by
    unfold recycleLoop
    split
    · exact hwf
    · exact linkWF_recycleLoop fuel _ _ (linkWF_dealOp hwf waste [stock] TURN.FACEDOWN)

theorem linkWF_gameClick {s : GameSt} (hwf : LinkWF s) (t : Target) :
    LinkWF (gameClick s t) := by
  unfold gameClick
  cases t with
  | slot k => exact hwf
  | card i => exact linkWF_setUndo (linkWF_flipOp hwf i TURN.TOGGLE) _

theorem linkWF_klondikeClick {s : GameSt} (hwf : LinkWF s) (t : Target) :
    LinkWF (klondikeClick s t) := by
  unfold klondikeClick
  cases t with
  | slot k =>
    dsimp only
    split
    · split
      · exact linkWF_setUndo (linkWF_recycleLoop _ _ _ hwf) _
      · exact hwf
    · exact hwf
  | card i =>
    dsimp only
    split
    · refine linkWF_setUndo (linkWF_flipOp ?_ i TURN.TOGGLE) _
      split
      · exact linkWF_dealOp hwf 0 [1] TURN.SAME
      · exact hwf
    · exact hwf

theorem linkWF_backboneClick {s : GameSt} (hwf : LinkWF s) (t : Target) :
    LinkWF (backboneClick s t) := by
  unfold backboneClick
  cases t with
  | slot k =>
    dsimp only
    split
    · split
      · exact linkWF_setRedeals (linkWF_recycleLoop _ _ _ hwf) _
      · exact hwf
    · exact hwf
  | card i =>
    dsimp only
    split
    · exact linkWF_setUndo (linkWF_dealOp hwf 0 [1] TURN.FACEUP) _
    · exact hwf

theorem linkWF_gameDrop {s : GameSt} (hwf : LinkWF s) (i : Nat) (t : Target)
    (hi : i < s.n) (ht : ∀ j, t = Target.card j → j < s.n) :
    LinkWF (gameDrop s i t) := by
  unfold gameDrop
  dsimp only
  cases t with
  | slot k =>
    cases (s.cards i).slot with
    | none => exact linkWF_placeOp hwf i k hi
    | some a => exact linkWF_setUndo (linkWF_placeOp hwf i k hi) _
  | card j =>
    cases (s.cards i).slot with
    | none => exact linkWF_stackOp hwf i j hi (ht j rfl)
    | some a => exact linkWF_setUndo (linkWF_stackOp hwf i j hi (ht j rfl)) _

theorem linkWF_dblToFoundations {s : GameSt} (hwf : LinkWF s)
    (draggable : GameSt → Nat → Bool)
    (dropp : GameSt → Nat → List Target → List Target)
    (foundations : List Nat) (t : Target)
    (hi : ∀ i, t = Target.card i → i < s.n)
    (hdrop : ∀ c ts d, d ∈ dropp s c ts → d ∈ ts) :
    LinkWF (dblToFoundations s draggable dropp foundations t) := by
  unfold dblToFoundations
  cases t with
  | slot k => exact hwf
  | card i =>
    dsimp only
    split
    · exact hwf
    · split
      · exact hwf
      · have htargets : ∀ d ∈ (foundations.map fun k =>
            match s.slots k with
            | none => Target.slot k
            | some h => Target.card ((chain s s.n h).getLastD h)),
            ∀ j, d = Target.card j → j < s.n := by
          intro d hd j hdj
          obtain ⟨k, -, hk⟩ := List.mem_map.mp hd
          subst hdj
          cases hsk : s.slots k with
          | none => rw [hsk] at hk; exact Target.noConfusion hk
          | some h =>
            rw [hsk] at hk
            dsimp only at hk
            have hjval := Target.card.inj hk
            have hh : h < s.n := hwf.headB k h hsk
            rw [← hjval]
            exact chain_tail_lt hwf h hh
        cases hdl : dropp s i (foundations.map fun k =>
            match s.slots k with
            | none => Target.slot k
            | some h => Target.card ((chain s s.n h).getLastD h)) with
        | nil => exact hwf
        | cons d rest =>
          refine linkWF_gameDrop hwf i d (hi i rfl) ?_
          intro j hdj
          exact htargets d (hdrop i _ d (by rw [hdl]; exact List.mem_cons_self d rest)) j hdj

theorem klondikeDroppable_sub (s : GameSt) (c : Nat) (ts : List Target) :
    ∀ d ∈ klondikeDroppable s c ts, d ∈ ts := by
  intro d hd
  unfold klondikeDroppable baseDroppable at hd
  exact List.mem_of_mem_filter (List.mem_of_mem_filter hd)

theorem backboneDroppable_sub (s : GameSt) (c : Nat) (ts : List Target) :
    ∀ d ∈ backboneDroppable s c ts, d ∈ ts := by
  intro d hd
  unfold backboneDroppable baseDroppable at hd
  exact List.mem_of_mem_filter (List.mem_of_mem_filter hd)

theorem linkWF_klondikeDoubleclick {s : GameSt} (hwf : LinkWF s) (t : Target)
    (hi : ∀ i, t = Target.card i → i < s.n) :
    LinkWF (klondikeDoubleclick s t) :=
  linkWF_dblToFoundations hwf _ _ _ t hi (fun c ts d => klondikeDroppable_sub s c ts d)

theorem linkWF_backboneDoubleclick {s : GameSt} (hwf : LinkWF s) (t : Target)
    (hi : ∀ i, t = Target.card i → i < s.n) :
    LinkWF (backboneDoubleclick s t) :=
  linkWF_dblToFoundations hwf _ _ _ t hi (fun c ts d => backboneDroppable_sub s c ts d)

end Pylitaire

namespace Pylitaire

theorem linkWF_fresh {s : GameSt} (h : Fresh s) : LinkWF s := by
  constructor
  · intro i hi j hc
    rw [(h.1 i).2.1] at hc
    exact Option.noConfusion hc
  · intro i hi p hp
    rw [(h.1 i).1] at hp
    exact Option.noConfusion hp
  · intro x hx
    exact ⟨(h.1 x).2.1, (h.1 x).1⟩
  · intro k hd hk
    rw [h.2 k] at hk
    exact Option.noConfusion hk
  · intro i hi hmem
    rw [show chain s s.n i = [] from by
      cases hn : s.n with
      | zero => rfl
      | succ n' => unfold chain; rw [(h.1 i).2.1]] at hmem
    exact List.not_mem_nil i hmem

theorem linkWF_step {s s' : GameSt} (hstep : Step s s') (hwf : LinkWF s) : LinkWF s' := by
  cases hstep with
  | cardStack i j hi hj => exact linkWF_stackOp hwf i j hi hj
  | cardPop i hi => exact linkWF_popOp hwf i hi
  | cardPlace i k hi => exact linkWF_placeOp hwf i k hi
  | slotStack k i hi => exact linkWF_slotStackOp hwf k i hi
  | slotDeal src ts turn => exact linkWF_dealOp hwf src ts turn
  | cardFlip i t => exact linkWF_flipOp hwf i t
  | clickBase t => exact linkWF_gameClick hwf t
  | clickKlondike t => exact linkWF_klondikeClick hwf t
  | clickBackbone t => exact linkWF_backboneClick hwf t
  | dropGesture i t hi ht => exact linkWF_gameDrop hwf i t hi ht
  | dblKlondike t hi => exact linkWF_klondikeDoubleclick hwf t hi
  | dblBackbone t hi => exact linkWF_backboneDoubleclick hwf t hi

theorem linkWF_reachable {s₀ s : GameSt} (hfresh : Fresh s₀) (hreach : Reachable s₀ s) :
    LinkWF s := by
  induction hreach with
  | refl => exact linkWF_fresh hfresh
  | tail _ hstep ih => exact linkWF_step hstep ih

/-- C2: in every state reachable from a freshly constructed game by the
public mutation operations (`Card.stack`, `Card.pop`, `Card.place`,
`Slot.stack`, `Slot.deal`, `Card.flip` and the game gesture methods),
the parent/child links are symmetric: `c.child.parent == c` whenever
`c.child` is set, and `c.parent.child == c` whenever `c.parent` is set. -/
theorem C2_link_symmetry (s₀ s : GameSt) (hfresh : Fresh s₀) (hreach : Reachable s₀ s) :
    ∀ i < s.n, (∀ j, (s.cards i).child = some j → (s.cards j).parent = some i) ∧
      (∀ p, (s.cards i).parent = some p → (s.cards p).child = some i) := by
  have hwf := linkWF_reachable hfresh hreach
  intro i hi
  exact ⟨fun j hc => (hwf.sym1 i hi j hc).2, fun p hp => (hwf.sym2 i hi p hp).2⟩

/-- C3: in every reachable state no card is reachable from itself by
repeatedly following `child` links; in particular `Card.stack`
(a reachability step, auto-correcting branches included) preserves
acyclicity. -/
theorem C3_no_child_cycles (s₀ s : GameSt) (hfresh : Fresh s₀) (hreach : Reachable s₀ s) :
    ∀ i < s.n, i ∉ chain s s.n i :=
  (linkWF_reachable hfresh hreach).acyc

theorem c2FreshState_fresh : Fresh c2FreshState := by
  constructor
  · intro i
    rcases Nat.lt_or_ge i 2 with h | h
    · interval_cases i <;> exact ⟨rfl, rfl, rfl⟩
    · rw [show c2FreshState.cards i = default from
        List.getD_eq_default _ default h]
      exact ⟨rfl, rfl, rfl⟩
  · intro k
    rcases Nat.lt_or_ge k 2 with h | h
    · interval_cases k <;> rfl
    · exact List.getD_eq_default _ none h

theorem C2_link_symmetry_witness :
    Fresh c2FreshState ∧
    Reachable c2FreshState (slotStackOp (slotStackOp c2FreshState 0 0) 0 1) ∧
    (∀ i < (slotStackOp (slotStackOp c2FreshState 0 0) 0 1).n,
      (∀ j, ((slotStackOp (slotStackOp c2FreshState 0 0) 0 1).cards i).child = some j →
        ((slotStackOp (slotStackOp c2FreshState 0 0) 0 1).cards j).parent = some i) ∧
      (∀ p, ((slotStackOp (slotStackOp c2FreshState 0 0) 0 1).cards i).parent = some p →
        ((slotStackOp (slotStackOp c2FreshState 0 0) 0 1).cards p).child = some i)) := by
  refine ⟨c2FreshState_fresh, ?_, ?_⟩
  · exact Relation.ReflTransGen.tail
      (Relation.ReflTransGen.single (Step.slotStack c2FreshState 0 0 (by decide)))
      (Step.slotStack (slotStackOp c2FreshState 0 0) 0 1 (by decide))
  · exact C2_link_symmetry c2FreshState _ c2FreshState_fresh
      (Relation.ReflTransGen.tail
        (Relation.ReflTransGen.single (Step.slotStack c2FreshState 0 0 (by decide)))
        (Step.slotStack (slotStackOp c2FreshState 0 0) 0 1 (by decide)))

theorem C3_no_child_cycles_witness :
    Fresh c2FreshState ∧
    Reachable c2FreshState (stackOp c2FreshState 1 0) ∧
    (∀ i < (stackOp c2FreshState 1 0).n, i ∉ chain (stackOp c2FreshState 1 0)
      (stackOp c2FreshState 1 0).n i) := by
  refine ⟨c2FreshState_fresh, ?_, ?_⟩
  · exact Relation.ReflTransGen.single (Step.cardStack c2FreshState 1 0 (by decide) (by decide))
  · exact C3_no_child_cycles c2FreshState _ c2FreshState_fresh
      (Relation.ReflTransGen.single (Step.cardStack c2FreshState 1 0 (by decide) (by decide)))

end Pylitaire

namespace Pylitaire

theorem getLastD_cons_eq (y : Nat) (l : List Nat) (d : Nat) :
    (y :: l).getLastD d = l.getLastD y := by
  cases l <;> rfl

theorem getLastD_concat_eq (l : List Nat) (c d : Nat) :
    (l ++ [c]).getLastD d = c := by
  induction l generalizing d with
  | nil => rfl
  | cons y l ih => rw [List.cons_append, getLastD_cons_eq]; exact ih y

theorem getLastD_mem_cons' (l : List Nat) (d : Nat) : l.getLastD d ∈ d :: l := by
  induction l generalizing d with
  | nil => exact List.mem_cons_self d []
  | cons y l ih =>
    rw [getLastD_cons_eq]
    exact List.mem_cons_of_mem d (ih y)

theorem nodup_snoc_not_mem {l : List Nat} {c : Nat} (h : (l ++ [c]).Nodup) : c ∉ l := by
  intro hc
  rcases List.nodup_append.mp h with ⟨-, -, hdisj⟩
  exact hdisj hc (List.mem_singleton.mpr rfl)

theorem nodup_length_le {L : List Nat} {n : Nat} (hnd : L.Nodup) (hb : ∀ x ∈ L, x < n) :
    L.length ≤ n := by
  have hsub : L.toFinset ⊆ Finset.range n := fun x hx =>
    Finset.mem_range.mpr (hb x (List.mem_toFinset.mp hx))
  have hcard := Finset.card_le_card hsub
  rwa [List.toFinset_card_of_nodup hnd, Finset.card_range] at hcard

theorem chain_eq_nil_of_child_none {s : GameSt} {i : Nat}
    (h : (s.cards i).child = none) : ∀ fuel, chain s fuel i = []
  | 0 => rfl
  | fuel + 1 => by unfold chain; rw [h]

theorem chainSeg_slot_mem {s : GameSt} {k : Nat} :
    ∀ (L : List Nat), ChainSeg s k L → ∀ x ∈ L, (s.cards x).slot = some k
  | [], _, x, hx => absurd hx (List.not_mem_nil x)
  | [y], hseg, x, hx => by
    rcases List.mem_singleton.mp hx with rfl
    exact hseg
  | y :: z :: rest, hseg, x, hx => by
    rcases List.mem_cons.mp hx with rfl | hx'
    · exact hseg.2.2.1
    · exact chainSeg_slot_mem (z :: rest) hseg.2.2.2 x hx'

theorem chainSeg_of_fields {s s' : GameSt} {k : Nat} :
    ∀ (L : List Nat),
    (∀ x ∈ L, (s'.cards x).slot = (s.cards x).slot) →
    (∀ x ∈ L, (s'.cards x).parent = (s.cards x).parent) →
    (∀ x ∈ L, ∀ y ∈ L, (s.cards x).child = some y →
      (s'.cards x).child = (s.cards x).child) →
    ChainSeg s k L → ChainSeg s' k L
  | [], _, _, _, _ => trivial
  | [x], hs, _, _, hseg => by
    show (s'.cards x).slot = some k
    rw [hs x (List.mem_singleton.mpr rfl)]
    exact hseg
  | x :: y :: rest, hs, hp, hc, hseg => by
    obtain ⟨h1, h2, h3, h4⟩ := hseg
    have hyx : y ∈ x :: y :: rest := List.mem_cons_of_mem x (List.mem_cons_self y rest)
    refine ⟨?_, ?_, ?_, ?_⟩
    · rw [hc x (List.mem_cons_self x _) y hyx h1]; exact h1
    · rw [hp y hyx]; exact h2
    · rw [hs x (List.mem_cons_self x _)]; exact h3
    · exact chainSeg_of_fields (y :: rest)
        (fun a ha => hs a (List.mem_cons_of_mem x ha))
        (fun a ha => hp a (List.mem_cons_of_mem x ha))
        (fun a ha b hb hab => hc a (List.mem_cons_of_mem x ha) b (List.mem_cons_of_mem x hb) hab)
        h4

theorem chainSeg_append_left {s : GameSt} {k c : Nat} :
    ∀ (SL : List Nat) (h : Nat), ChainSeg s k (h :: (SL ++ [c])) → ChainSeg s k (h :: SL)
  | [], h, hseg => hseg.2.2.1
  | y :: SL', h, hseg =>
    ⟨hseg.1, hseg.2.1, hseg.2.2.1, chainSeg_append_left SL' y hseg.2.2.2⟩

theorem chainSeg_last_link {s : GameSt} {k c : Nat} :
    ∀ (SL : List Nat) (h : Nat), ChainSeg s k (h :: (SL ++ [c])) →
      (s.cards (SL.getLastD h)).child = some c ∧
      (s.cards c).parent = some (SL.getLastD h)
  | [], h, hseg => ⟨hseg.1, hseg.2.1⟩
  | y :: SL', h, hseg => by
    rw [getLastD_cons_eq]
    exact chainSeg_last_link SL' y hseg.2.2.2

theorem chainSeg_snoc {s : GameSt} {k c : Nat} :
    ∀ (rest : List Nat) (h : Nat), ChainSeg s k (h :: rest) →
      (s.cards (rest.getLastD h)).child = some c →
      (s.cards c).parent = some (rest.getLastD h) →
      (s.cards c).slot = some k →
      ChainSeg s k (h :: (rest ++ [c]))
  | [], h, hseg, hch, hpar, hsl => ⟨hch, hpar, hseg, hsl⟩
  | y :: rest', h, hseg, hch, hpar, hsl =>
    ⟨hseg.1, hseg.2.1, hseg.2.2.1,
      chainSeg_snoc rest' y hseg.2.2.2
        (by rw [getLastD_cons_eq] at hch; exact hch)
        (by rw [getLastD_cons_eq] at hpar; exact hpar) hsl⟩

theorem chain_eq_of_chainSeg {s : GameSt} {k : Nat} :
    ∀ (rest : List Nat) (h fuel : Nat), ChainSeg s k (h :: rest) →
      (s.cards (rest.getLastD h)).child = none →
      rest.length ≤ fuel → chain s fuel h = rest
  | [], h, fuel, _, hlast, _ => chain_eq_nil_of_child_none hlast fuel
  | y :: rest', h, fuel, hseg, hlast, hlen => by
    cases fuel with
    | zero => exact absurd hlen (by simp)
    | succ f =>
      have hrec : chain s f y = rest' :=
        chain_eq_of_chainSeg rest' y f hseg.2.2.2
          (by rw [getLastD_cons_eq] at hlast; exact hlast)
          (Nat.le_of_succ_le_succ hlen)
      conv_lhs => unfold chain; rw [hseg.1]
      show y :: chain s f y = y :: rest'
      rw [hrec]

theorem slotList_last_child {s : GameSt} {A : Nat} {SL : List Nat} {c : Nat}
    (hS : SlotList s A (SL ++ [c])) : (s.cards c).child = none := by
  cases SL with
  | nil => exact hS.2.2.2
  | cons h SL' =>
    have := hS.2.2.2
    have h2 : (SL'.append [c]).getLastD h = c := getLastD_concat_eq SL' c h
    rw [h2] at this
    exact this

theorem slotList_of_fields {s s' : GameSt} {k : Nat} {L : List Nat}
    (hk : s'.slots k = s.slots k)
    (h1 : ∀ x, (s'.cards x).slot = (s.cards x).slot)
    (h2 : ∀ x, (s'.cards x).parent = (s.cards x).parent)
    (h3 : ∀ x, (s'.cards x).child = (s.cards x).child)
    (h : SlotList s k L) : SlotList s' k L := by
  cases L with
  | nil =>
    show s'.slots k = none
    rw [hk]; exact h
  | cons hd rest =>
    obtain ⟨ha, hb, hc, hd'⟩ := h
    exact ⟨by rw [hk]; exact ha, by rw [h2]; exact hb,
      chainSeg_of_fields _ (fun x _ => h1 x) (fun x _ => h2 x)
        (fun x _ y _ _ => h3 x) hc,
      by rw [h3]; exact hd'⟩

theorem slotList_congr_mem {s s' : GameSt} {k : Nat} {L : List Nat}
    (hk : s'.slots k = s.slots k)
    (hcards : ∀ x ∈ L, s'.cards x = s.cards x)
    (h : SlotList s k L) : SlotList s' k L := by
  cases L with
  | nil =>
    show s'.slots k = none
    rw [hk]; exact h
  | cons hd rest =>
    obtain ⟨ha, hb, hc, hd'⟩ := h
    refine ⟨by rw [hk]; exact ha, ?_, ?_, ?_⟩
    · rw [hcards hd (List.mem_cons_self hd rest)]; exact hb
    · exact chainSeg_of_fields _ (fun x hx => by rw [hcards x hx])
        (fun x hx => by rw [hcards x hx])
        (fun x hx y _ _ => by rw [hcards x hx]) hc
    · rw [hcards (rest.getLastD hd) (getLastD_mem_cons' rest hd)]; exact hd'

end Pylitaire

namespace Pylitaire

theorem setFace_child (s : GameSt) (i : Nat) (v : Bool) (x : Nat) :
    ((s.setFace i v).cards x).child = (s.cards x).child := by
  simp only [GameSt.setFace, GameSt.setCard_cards]
  split <;> simp_all

theorem setFace_parent (s : GameSt) (i : Nat) (v : Bool) (x : Nat) :
    ((s.setFace i v).cards x).parent = (s.cards x).parent := by
  simp only [GameSt.setFace, GameSt.setCard_cards]
  split <;> simp_all

theorem setFace_slotF (s : GameSt) (i : Nat) (v : Bool) (x : Nat) :
    ((s.setFace i v).cards x).slot = (s.cards x).slot := by
  simp only [GameSt.setFace, GameSt.setCard_cards]
  split <;> simp_all

theorem flipOp_child (s : GameSt) (i : Nat) (t : TURN) (x : Nat) :
    ((flipOp s i t).cards x).child = (s.cards x).child := by
  cases t with
  | SAME => rfl
  | TOGGLE => exact setFace_child s i _ x
  | FACEUP => exact setFace_child s i _ x
  | FACEDOWN => exact setFace_child s i _ x

theorem flipOp_parent (s : GameSt) (i : Nat) (t : TURN) (x : Nat) :
    ((flipOp s i t).cards x).parent = (s.cards x).parent := by
  cases t with
  | SAME => rfl
  | TOGGLE => exact setFace_parent s i _ x
  | FACEUP => exact setFace_parent s i _ x
  | FACEDOWN => exact setFace_parent s i _ x

theorem flipOp_slotF (s : GameSt) (i : Nat) (t : TURN) (x : Nat) :
    ((flipOp s i t).cards x).slot = (s.cards x).slot := by
  cases t with
  | SAME => rfl
  | TOGGLE => exact setFace_slotF s i _ x
  | FACEUP => exact setFace_slotF s i _ x
  | FACEDOWN => exact setFace_slotF s i _ x

theorem flipOp_slots (s : GameSt) (i : Nat) (t : TURN) : (flipOp s i t).slots = s.slots := by
  cases t <;> rfl

theorem flipOp_n (s : GameSt) (i : Nat) (t : TURN) : (flipOp s i t).n = s.n := by
  cases t <;> rfl

theorem flipOp_faceup_self (s : GameSt) (i : Nat) (t : TURN) :
    ((flipOp s i t).cards i).faceup = turnApply t ((s.cards i).faceup) := by
  cases t with
  | SAME => rfl
  | TOGGLE => simp [flipOp, GameSt.setFace, GameSt.setCard_cards, turnApply]
  | FACEUP => simp [flipOp, GameSt.setFace, GameSt.setCard_cards, turnApply]
  | FACEDOWN => simp [flipOp, GameSt.setFace, GameSt.setCard_cards, turnApply]

/-- Popping the tail card of a slot's pile: the pile loses its last
card, other slots and cards are untouched, and the popped card ends up
fully detached. -/
theorem slotList_pop_last {s : GameSt} {A : Nat} {SL : List Nat} {c : Nat}
    (hS : SlotList s A (SL ++ [c])) (hnd : (SL ++ [c]).Nodup) :
    SlotList (popOp s c) A SL ∧
    (∀ k, k ≠ A → (popOp s c).slots k = s.slots k) ∧
    (∀ x, x ∉ SL → x ≠ c → (popOp s c).cards x = s.cards x) ∧
    ((popOp s c).cards c).parent = none ∧
    ((popOp s c).cards c).slot = none ∧
    ((popOp s c).cards c).child = none := by
  have hchc : (s.cards c).child = none := slotList_last_child hS
  have hchainc : chain s s.n c = [] := chain_eq_nil_of_child_none hchc s.n
  cases SL with
  | nil =>
    obtain ⟨hslA, hparc, hseg, hlast⟩ := hS
    have hslotc : (s.cards c).slot = some A := hseg
    refine ⟨?_, ?_, ?_, ?_, ?_, ?_⟩
    · show (popOp s c).slots A = none
      rw [popOp_slots, if_pos ⟨hslotc, hslA⟩]
    · intro k hk
      have hcond : ¬((s.cards c).slot = some k ∧ s.slots k = some c) := by
        intro hh
        rw [hslotc] at hh
        exact hk (Option.some.inj hh.1).symm
      rw [popOp_slots, if_neg hcond]
    · intro x _ hxc
      rw [popOp_cards]
      dsimp only
      rw [if_neg (show x ∉ c :: chain s s.n c from by rw [hchainc]; simp [hxc]),
        if_neg (show ¬(s.cards c).parent = some x from by rw [hparc]; simp),
        if_neg hxc]
    · rw [popOp_parent, if_pos rfl]
    · rw [popOp_slotF, if_pos (List.mem_cons_self c _)]
    · rw [popOp_child, if_neg (show ¬(s.cards c).parent = some c from by rw [hparc]; simp)]
      exact hchc
  | cons h SL' =>
    obtain ⟨hslA, hparh, hseg, hlast⟩ := hS
    obtain ⟨hpc, hcp⟩ := chainSeg_last_link SL' h hseg
    have hcnot : c ∉ h :: SL' := nodup_snoc_not_mem hnd
    have hpmem : SL'.getLastD h ∈ h :: SL' := getLastD_mem_cons' SL' h
    have hhc : h ≠ c := fun e => hcnot (by rw [← e]; exact List.mem_cons_self h SL')
    have hpc_ne : SL'.getLastD h ≠ c := fun e => hcnot (e ▸ hpmem)
    have hslotc : (s.cards c).slot = some A :=
      chainSeg_slot_mem _ hseg c (by simp)
    have hslotF : ∀ x, x ≠ c → ((popOp s c).cards x).slot = (s.cards x).slot := by
      intro x hxc
      rw [popOp_slotF, if_neg (show x ∉ c :: chain s s.n c from by rw [hchainc]; simp [hxc])]
    have hparF : ∀ x, x ≠ c → ((popOp s c).cards x).parent = (s.cards x).parent := by
      intro x hxc
      rw [popOp_parent, if_neg hxc]
    have hchF : ∀ x, SL'.getLastD h ≠ x → ((popOp s c).cards x).child = (s.cards x).child := by
      intro x hpx
      rw [popOp_child, if_neg (fun hh => hpx (Option.some.inj (hcp ▸ hh)))]
    refine ⟨?_, ?_, ?_, ?_, ?_, ?_⟩
    · have hslA' : (popOp s c).slots A = some h := by
        have hcond : ¬((s.cards c).slot = some A ∧ s.slots A = some c) := by
          intro hh
          rw [hslA] at hh
          exact hhc (Option.some.inj hh.2)
        rw [popOp_slots, if_neg hcond]
        exact hslA
      refine ⟨hslA', ?_, ?_, ?_⟩
      · rw [hparF h hhc]; exact hparh
      · exact chainSeg_of_fields _
          (fun x hx => hslotF x (fun e => hcnot (e ▸ hx)))
          (fun x hx => hparF x (fun e => hcnot (e ▸ hx)))
          (fun x hx y hy hxy => hchF x (fun e => by
            rw [← e, hpc] at hxy
            exact hcnot ((Option.some.inj hxy).symm ▸ hy)))
          (chainSeg_append_left SL' h hseg)
      · rw [popOp_child, if_pos hcp]
    · intro k hk
      have hcond : ¬((s.cards c).slot = some k ∧ s.slots k = some c) := by
        intro hh
        rw [hslotc] at hh
        exact hk (Option.some.inj hh.1).symm
      rw [popOp_slots, if_neg hcond]
    · intro x hxm hxc
      rw [popOp_cards]
      dsimp only
      rw [if_neg (show x ∉ c :: chain s s.n c from by rw [hchainc]; simp [hxc]),
        if_neg (show ¬(s.cards c).parent = some x from fun hh =>
          hxm ((Option.some.inj (hcp ▸ hh)) ▸ hpmem)),
        if_neg hxc]
    · rw [popOp_parent, if_pos rfl]
    · rw [popOp_slotF, if_pos (List.mem_cons_self c _)]
    · rw [popOp_child, if_neg (fun hh => hpc_ne (Option.some.inj (hcp ▸ hh)))]
      exact hchc

end Pylitaire

namespace Pylitaire

/-- `Slot.stack` onto slot `B` of a tail card `c` of some other pile:
relative to the card's internal `pop`, the pile of `B` gains `c` as its
new tail and everything else is framed. -/
theorem slotList_stack_tail {s : GameSt} {B : Nat} {WL : List Nat} {c : Nat}
    (hW : SlotList s B WL)
    (hpopcards : ∀ x ∈ WL, (popOp s c).cards x = s.cards x)
    (hpopslots : (popOp s c).slots B = s.slots B)
    (hpop_par : ((popOp s c).cards c).parent = none)
    (hpop_child : ((popOp s c).cards c).child = none)
    (hch : (s.cards c).child = none)
    (hcW : c ∉ WL) (hnd : WL.Nodup) (hb : ∀ x ∈ WL, x < s.n) :
    SlotList (slotStackOp s B c) B (WL ++ [c]) ∧
    (∀ k, k ≠ B → (slotStackOp s B c).slots k = (popOp s c).slots k) ∧
    (∀ x, x ∉ WL → x ≠ c → (slotStackOp s B c).cards x = (popOp s c).cards x) := by
  have hchainc : chain s s.n c = [] := chain_eq_nil_of_child_none hch s.n
  cases WL with
  | nil =>
    have hWB : s.slots B = none := hW
    have hrw : slotStackOp s B c = placeOp s c B := by
      unfold slotStackOp
      rw [hWB]
    have hrw2 : placeOp s c B =
        setSlotChain ((popOp s c).setSlotHead B (some c))
          (((popOp s c).setSlotHead B (some c)).n + 1) c (some B) := by
      unfold placeOp
      rw [hWB]
    rw [hrw, hrw2]
    have h3chain : chain ((popOp s c).setSlotHead B (some c))
        ((popOp s c).setSlotHead B (some c)).n c = [] :=
      chain_eq_nil_of_child_none
        (show ((((popOp s c).setSlotHead B (some c))).cards c).child = none from hpop_child) _
    have h4cards : ∀ x, (setSlotChain ((popOp s c).setSlotHead B (some c))
          (((popOp s c).setSlotHead B (some c)).n + 1) c (some B)).cards x =
        if x ∈ [c] then { (popOp s c).cards x with slot := some B }
        else (popOp s c).cards x := by
      intro x
      rw [setSlotChain_cards, h3chain]
      rfl
    have h4slots_self : (setSlotChain ((popOp s c).setSlotHead B (some c))
        (((popOp s c).setSlotHead B (some c)).n + 1) c (some B)).slots B = some c := by
      rw [setSlotChain_slots]
      simp [GameSt.setSlotHead]
    have h4slots_ne : ∀ k, k ≠ B → (setSlotChain ((popOp s c).setSlotHead B (some c))
        (((popOp s c).setSlotHead B (some c)).n + 1) c (some B)).slots k =
        (popOp s c).slots k := by
      intro k hk
      rw [setSlotChain_slots]
      simp only [GameSt.setSlotHead, if_neg hk]
    refine ⟨⟨h4slots_self, ?_, ?_, ?_⟩, h4slots_ne, ?_⟩
    · rw [h4cards, if_pos (by simp)]
      exact hpop_par
    · show (_ : CardSt).slot = some B
      rw [h4cards, if_pos (by simp)]
    · rw [h4cards, if_pos (by simp)]
      exact hpop_child
    · intro x _ hxc
      rw [h4cards, if_neg (by simp [hxc])]
  | cons w WL' =>
    obtain ⟨hslB, hparw, hsegW, hlastW⟩ := hW
    have htmem : WL'.getLastD w ∈ w :: WL' := getLastD_mem_cons' WL' w
    have hslt : (s.cards (WL'.getLastD w)).slot = some B :=
      chainSeg_slot_mem _ hsegW _ htmem
    have hct : c ≠ WL'.getLastD w := fun e => hcW (by rw [e]; exact htmem)
    have hwc : w ≠ c := fun e => hcW (by rw [← e]; exact List.mem_cons_self w WL')
    have hchainw : chain s s.n w = WL' :=
      chain_eq_of_chainSeg WL' w s.n hsegW hlastW
        (Nat.le_of_succ_le (nodup_length_le hnd hb))
    have hcht : (s.cards (WL'.getLastD w)).child = none := hlastW
    have hrw : slotStackOp s B c = stackOp s c (WL'.getLastD w) := by
      have h1 : slotStackOp s B c = stackOp s c ((chain s s.n w).getLastD w) := by
        unfold slotStackOp
        rw [hslB]
      rw [h1, hchainw]
    have hrw2 : stackOp s c (WL'.getLastD w) =
        setSlotChain
          (((popOp s c).setParent c (some (WL'.getLastD w))).setChild (WL'.getLastD w) (some c))
          ((((popOp s c).setParent c (some (WL'.getLastD w))).setChild
              (WL'.getLastD w) (some c)).n + 1) c
          (((((popOp s c).setParent c (some (WL'.getLastD w))).setChild
              (WL'.getLastD w) (some c)).cards (WL'.getLastD w)).slot) := by
      unfold stackOp
      rw [if_neg hct]
      dsimp only
      rw [if_neg (show ¬ WL'.getLastD w ∈ chain s s.n c from by
            rw [hchainc]; exact List.not_mem_nil _),
        hcht]
    rw [hrw, hrw2]
    set t := WL'.getLastD w with ht
    set s₄ := ((popOp s c).setParent c (some t)).setChild t (some c) with hs₄
    have h4cards_other : ∀ x, x ≠ c → x ≠ t → s₄.cards x = (popOp s c).cards x := by
      intro x hxc hxt
      rw [hs₄]
      simp only [GameSt.setChild, GameSt.setParent, GameSt.setCard_cards,
        if_neg hxt, if_neg hxc]
    have h4cardc : s₄.cards c = { (popOp s c).cards c with parent := some t } := by
      rw [hs₄]
      simp only [GameSt.setChild, GameSt.setParent, GameSt.setCard_cards,
        if_neg (show ¬c = t from hct), if_pos rfl, if_true, eq_self_iff_true]
    have h4cardt : s₄.cards t = { s.cards t with child := some c } := by
      rw [hs₄]
      simp only [GameSt.setChild, GameSt.setParent, GameSt.setCard_cards, if_pos rfl,
        if_neg (show ¬t = c from fun e => hct e.symm), if_true, eq_self_iff_true]
      rw [hpopcards t htmem]
    have h4slots : ∀ k, s₄.slots k = (popOp s c).slots k := by
      intro k
      rw [hs₄]
      simp only [GameSt.setChild, GameSt.setParent, GameSt.setCard_slots]
    have h4t_slot : (s₄.cards t).slot = some B := by rw [h4cardt]; exact hslt
    have h4c_child : (s₄.cards c).child = none := by rw [h4cardc]; exact hpop_child
    have h4chain : chain s₄ s₄.n c = [] := chain_eq_nil_of_child_none h4c_child s₄.n
    have h5cards : ∀ x, (setSlotChain s₄ (s₄.n + 1) c ((s₄.cards t).slot)).cards x =
        if x ∈ [c] then { s₄.cards x with slot := some B } else s₄.cards x := by
      intro x
      rw [setSlotChain_cards, h4chain, h4t_slot]
    have h5slots : ∀ k, (setSlotChain s₄ (s₄.n + 1) c ((s₄.cards t).slot)).slots k =
        (popOp s c).slots k := by
      intro k
      rw [setSlotChain_slots]
      exact h4slots k
    have h5par : ∀ x ∈ w :: WL', x ≠ c →
        ((setSlotChain s₄ (s₄.n + 1) c ((s₄.cards t).slot)).cards x).parent =
        (s.cards x).parent := by
      intro x hx hxc
      rw [h5cards, if_neg (by simp [hxc])]
      by_cases hxt : x = t
      · rw [hxt, h4cardt]
      · rw [h4cards_other x hxc hxt, hpopcards x hx]
    have h5slotF : ∀ x ∈ w :: WL', x ≠ c →
        ((setSlotChain s₄ (s₄.n + 1) c ((s₄.cards t).slot)).cards x).slot =
        (s.cards x).slot := by
      intro x hx hxc
      rw [h5cards, if_neg (by simp [hxc])]
      by_cases hxt : x = t
      · rw [hxt, h4cardt]
      · rw [h4cards_other x hxc hxt, hpopcards x hx]
    have h5child : ∀ x ∈ w :: WL', x ≠ c → x ≠ t →
        ((setSlotChain s₄ (s₄.n + 1) c ((s₄.cards t).slot)).cards x).child =
        (s.cards x).child := by
      intro x hx hxc hxt
      rw [h5cards, if_neg (by simp [hxc]), h4cards_other x hxc hxt, hpopcards x hx]
    have h5c_par : ((setSlotChain s₄ (s₄.n + 1) c ((s₄.cards t).slot)).cards c).parent =
        some t := by
      rw [h5cards, if_pos (by simp), h4cardc]
    have h5c_slot : ((setSlotChain s₄ (s₄.n + 1) c ((s₄.cards t).slot)).cards c).slot =
        some B := by
      rw [h5cards, if_pos (by simp)]
    have h5c_child : ((setSlotChain s₄ (s₄.n + 1) c ((s₄.cards t).slot)).cards c).child =
        none := by
      rw [h5cards, if_pos (by simp)]
      show (s₄.cards c).child = none
      exact h4c_child
    have h5t_child : ((setSlotChain s₄ (s₄.n + 1) c ((s₄.cards t).slot)).cards t).child =
        some c := by
      rw [h5cards, if_neg (by simp [show ¬t = c from fun e => hct e.symm]), h4cardt]
    have hsegW' : ChainSeg (setSlotChain s₄ (s₄.n + 1) c ((s₄.cards t).slot)) B (w :: WL') :=
      chainSeg_of_fields _
        (fun x hx => h5slotF x hx (fun e => hcW (e ▸ hx)))
        (fun x hx => h5par x hx (fun e => hcW (e ▸ hx)))
        (fun x hx y hy hxy => h5child x hx (fun e => hcW (e ▸ hx))
          (fun e => by rw [e, hcht] at hxy; exact Option.noConfusion hxy))
        hsegW
    refine ⟨⟨?_, ?_, ?_, ?_⟩, ?_, ?_⟩
    · rw [h5slots, hpopslots]
      exact hslB
    · rw [h5par w (List.mem_cons_self w WL') hwc]
      exact hparw
    · exact chainSeg_snoc WL' w hsegW' h5t_child h5c_par h5c_slot
    · have hg : ((WL'.append [c]).getLastD w) = c := getLastD_concat_eq WL' c w
      rw [hg]
      exact h5c_child
    · intro k _
      rw [h5slots]
    · intro x hxm hxc
      have hxt : x ≠ t := fun e => hxm (by rw [e]; exact htmem)
      rw [h5cards, if_neg (by simp [hxc]), h4cards_other x hxc hxt]

end Pylitaire

namespace Pylitaire

theorem slotList_head_tail {s : GameSt} {k : Nat} {SL : List Nat} {c : Nat}
    (hS : SlotList s k (SL ++ [c])) (hnd : (SL ++ [c]).Nodup)
    (hb : ∀ x ∈ SL ++ [c], x < s.n) :
    ∃ h₀, s.slots k = some h₀ ∧ (chain s s.n h₀).getLastD h₀ = c := by
  cases SL with
  | nil =>
    refine ⟨c, hS.1, ?_⟩
    rw [chain_eq_nil_of_child_none (slotList_last_child hS) s.n]
    rfl
  | cons h SL' =>
    refine ⟨h, hS.1, ?_⟩
    have hlen0 : ((h :: SL') ++ [c]).length ≤ s.n := nodup_length_le hnd hb
    have hlen : (SL' ++ [c]).length ≤ s.n := by
      simp only [List.length_append, List.length_cons] at hlen0 ⊢
      omega
    have hchain : chain s s.n h = SL' ++ [c] :=
      chain_eq_of_chainSeg (SL' ++ [c]) h s.n hS.2.2.1 hS.2.2.2 hlen
    rw [hchain, getLastD_concat_eq]

/-- `Slot.deal(target, faceup)` on a slot holding the pile `SL ++ [c]`:
the tail card `c` moves to the target pile's tail with its face set by
the turn argument; both piles are updated and everything else is
framed. -/
theorem deal_move {s : GameSt} {A B : Nat} (hAB : A ≠ B)
    {SL WL : List Nat} {c : Nat} (t : TURN)
    (hS : SlotList s A (SL ++ [c])) (hW : SlotList s B WL)
    (hnd : (SL ++ c :: WL).Nodup)
    (hb : ∀ x ∈ SL ++ c :: WL, x < s.n) :
    SlotList (dealOp s A [B] t) A SL ∧
    SlotList (dealOp s A [B] t) B (WL ++ [c]) ∧
    (∀ k, k ≠ A → k ≠ B → (dealOp s A [B] t).slots k = s.slots k) ∧
    ((dealOp s A [B] t).cards c).faceup = turnApply t ((s.cards c).faceup) ∧
    (∀ x, x ≠ c → ((dealOp s A [B] t).cards x).faceup = (s.cards x).faceup) := by
  have hsubSC : (SL ++ [c]).Sublist (SL ++ c :: WL) :=
    List.Sublist.append_left (List.Sublist.cons₂ c (List.nil_sublist WL)) SL
  have hndSC : (SL ++ [c]).Nodup := List.Nodup.sublist hsubSC hnd
  have hbSC : ∀ x ∈ SL ++ [c], x < s.n := fun x hx => hb x (hsubSC.mem hx)
  have hndCW : (c :: WL).Nodup := (List.nodup_append.mp hnd).2.1
  have hcW : c ∉ WL := (List.nodup_cons.mp hndCW).1
  have hndW : WL.Nodup := (List.nodup_cons.mp hndCW).2
  have hbW : ∀ x ∈ WL, x < s.n := fun x hx =>
    hb x (List.mem_append.mpr (Or.inr (List.mem_cons_of_mem c hx)))
  have hdisj : ∀ x ∈ WL, x ∉ SL := fun x hx hmem =>
    (List.disjoint_of_nodup_append hnd) hmem (List.mem_cons_of_mem c hx)
  obtain ⟨h₀, hsl0, htail⟩ := slotList_head_tail hS hndSC hbSC
  have hrw : dealOp s A [B] t = slotStackOp (flipOp s c t) B c := by
    have h1 : dealOp s A [B] t =
        slotStackOp (flipOp s ((chain s s.n h₀).getLastD h₀) t) B
          ((chain s s.n h₀).getLastD h₀) := by
      unfold dealOp
      rw [hsl0]
      rfl
    rw [h1, htail]
  rw [hrw]
  have hflip_slots : ∀ k, (flipOp s c t).slots k = s.slots k := by
    intro k; rw [flipOp_slots]
  have hS1 : SlotList (flipOp s c t) A (SL ++ [c]) :=
    slotList_of_fields (hflip_slots A) (flipOp_slotF s c t) (flipOp_parent s c t)
      (flipOp_child s c t) hS
  have hW1 : SlotList (flipOp s c t) B WL :=
    slotList_of_fields (hflip_slots B) (flipOp_slotF s c t) (flipOp_parent s c t)
      (flipOp_child s c t) hW
  have hn1 : (flipOp s c t).n = s.n := flipOp_n s c t
  obtain ⟨hpopS, hpop_slots, hpop_cards, hpop_par, hpop_slot, hpop_child⟩ :=
    slotList_pop_last hS1 hndSC
  have hch1 : ((flipOp s c t).cards c).child = none := slotList_last_child hS1
  obtain ⟨hstW, hst_slots, hst_cards⟩ :=
    slotList_stack_tail hW1
      (fun x hx => hpop_cards x (hdisj x hx) (fun e => hcW (e ▸ hx)))
      (hpop_slots B (Ne.symm hAB)) hpop_par hpop_child hch1 hcW hndW
      (fun x hx => by rw [hn1]; exact hbW x hx)
  refine ⟨?_, hstW, ?_, ?_, ?_⟩
  · refine slotList_congr_mem (hst_slots A hAB) ?_ hpopS
    intro x hx
    exact hst_cards x (fun hxW => hdisj x hxW hx)
      (fun e => (nodup_snoc_not_mem hndSC) (e ▸ hx))
  · intro k hkA hkB
    rw [hst_slots k hkB, hpop_slots k hkA, hflip_slots k]
  · have hface1 : ((slotStackOp (flipOp s c t) B c).cards c).faceup =
        ((flipOp s c t).cards c).faceup := (slotStackOp_frame (flipOp s c t) B c).faceup c
    rw [hface1, flipOp_faceup_self]
  · intro x hxc
    have hface1 : ((slotStackOp (flipOp s c t) B c).cards x).faceup =
        ((flipOp s c t).cards x).faceup := (slotStackOp_frame (flipOp s c t) B c).faceup x
    rw [hface1, flipOp_faceup_other s c x t hxc]

end Pylitaire

namespace Pylitaire

theorem slotList_setUndo {s : GameSt} {k : Nat} {L : List Nat} (u : List UndoEntry)
    (h : SlotList s k L) : SlotList { s with undocmds := u } k L :=
  @slotList_of_fields s { s with undocmds := u } k L rfl
    (fun _ => rfl) (fun _ => rfl) (fun _ => rfl) h

theorem slotList_setRedeals {s : GameSt} {k : Nat} {L : List Nat} (r : Nat)
    (h : SlotList s k L) : SlotList { s with redeals := r } k L :=
  @slotList_of_fields s { s with redeals := r } k L rfl
    (fun _ => rfl) (fun _ => rfl) (fun _ => rfl) h

/-- `Klondike.click` on the face-down tail card of the stock: the card
moves to the waste's tail and ends face-up; everything else keeps its
face, and the counters are unchanged. -/
theorem klondikeClick_stock_card {s : GameSt} {SL WL : List Nat} {c : Nat}
    (hS : SlotList s 0 (SL ++ [c])) (hW : SlotList s 1 WL)
    (hnd : (SL ++ c :: WL).Nodup) (hb : ∀ x ∈ SL ++ c :: WL, x < s.n)
    (hfd : (s.cards c).faceup = false) :
    SlotList (klondikeClick s (Target.card c)) 0 SL ∧
    SlotList (klondikeClick s (Target.card c)) 1 (WL ++ [c]) ∧
    (klondikeClick s (Target.card c)).n = s.n ∧
    (klondikeClick s (Target.card c)).m = s.m ∧
    ((klondikeClick s (Target.card c)).cards c).faceup = true ∧
    (∀ x, x ≠ c → ((klondikeClick s (Target.card c)).cards x).faceup =
      (s.cards x).faceup) := by
  have hchc : (s.cards c).child = none := slotList_last_child hS
  have hslotc : (s.cards c).slot = some 0 := by
    cases SL with
    | nil => exact hS.2.2.1
    | cons h SL' => exact chainSeg_slot_mem _ hS.2.2.1 c (by simp)
  have hrw : klondikeClick s (Target.card c) =
      { flipOp (dealOp s 0 [1] TURN.SAME) c TURN.TOGGLE with
        undocmds := (flipOp (dealOp s 0 [1] TURN.SAME) c TURN.TOGGLE).undocmds ++
          [UndoEntry.group ([UndoCmd.deal 1 [0] TURN.SAME] ++ [UndoCmd.flip c])] } := by
    unfold klondikeClick
    dsimp only
    rw [if_pos (show (decide ((s.cards c).child = none) && !(s.cards c).faceup) = true from by
          rw [hchc, hfd]; rfl),
      if_pos hslotc]
  obtain ⟨hdS, hdW, hdsl, hdfc, hdfo⟩ := deal_move (show (0 : Nat) ≠ 1 from by decide)
    TURN.SAME hS hW hnd hb
  have hdn : (dealOp s 0 [1] TURN.SAME).n = s.n := (dealOp_ctrl s 0 [1] TURN.SAME).n
  have hdm : (dealOp s 0 [1] TURN.SAME).m = s.m := (dealOp_ctrl s 0 [1] TURN.SAME).m
  have hfS : SlotList (flipOp (dealOp s 0 [1] TURN.SAME) c TURN.TOGGLE) 0 SL :=
    slotList_of_fields (by rw [flipOp_slots]) (flipOp_slotF _ c _) (flipOp_parent _ c _)
      (flipOp_child _ c _) hdS
  have hfW : SlotList (flipOp (dealOp s 0 [1] TURN.SAME) c TURN.TOGGLE) 1 (WL ++ [c]) :=
    slotList_of_fields (by rw [flipOp_slots]) (flipOp_slotF _ c _) (flipOp_parent _ c _)
      (flipOp_child _ c _) hdW
  rw [hrw]
  refine ⟨slotList_setUndo _ hfS, slotList_setUndo _ hfW, ?_, ?_, ?_, ?_⟩
  · show (flipOp (dealOp s 0 [1] TURN.SAME) c TURN.TOGGLE).n = s.n
    rw [flipOp_n, hdn]
  · show (flipOp (dealOp s 0 [1] TURN.SAME) c TURN.TOGGLE).m = s.m
    rw [(flipOp_ctrl (dealOp s 0 [1] TURN.SAME) c TURN.TOGGLE).m, hdm]
  · show ((flipOp (dealOp s 0 [1] TURN.SAME) c TURN.TOGGLE).cards c).faceup = true
    rw [flipOp_faceup_self, hdfc, hfd]
    rfl
  · intro x hxc
    show ((flipOp (dealOp s 0 [1] TURN.SAME) c TURN.TOGGLE).cards x).faceup =
      (s.cards x).faceup
    rw [flipOp_faceup_other _ c x _ hxc, hdfo x hxc]

/-- Repeatedly clicking the stock's tail card, once per stock card,
empties the stock onto the waste in reverse order, turning every dealt
card face-up. -/
theorem clickStockLoop_deals :
    ∀ (SL : List Nat) (s : GameSt) (WL : List Nat),
      SlotList s 0 SL → SlotList s 1 WL →
      (SL ++ WL).Nodup → (∀ x ∈ SL ++ WL, x < s.n) →
      (∀ x ∈ SL, (s.cards x).faceup = false) →
      SlotList (clickStockLoop s SL.length) 0 [] ∧
      SlotList (clickStockLoop s SL.length) 1 (WL ++ SL.reverse) ∧
      (clickStockLoop s SL.length).n = s.n ∧
      (clickStockLoop s SL.length).m = s.m ∧
      (∀ x ∈ SL, ((clickStockLoop s SL.length).cards x).faceup = true) ∧
      (∀ x, x ∉ SL → ((clickStockLoop s SL.length).cards x).faceup =
        (s.cards x).faceup) := by
  intro SL
  induction SL using List.reverseRecOn with
  | nil =>
    intro s WL hS hW hnd hb hfd
    refine ⟨hS, ?_, rfl, rfl, by simp, fun x _ => rfl⟩
    rw [List.reverse_nil, List.append_nil]
    exact hW
  | append_singleton SL' c ih =>
    intro s WL hS hW hnd hb hfd
    have hlen : (SL' ++ [c]).length = SL'.length + 1 := by simp
    rw [hlen]
    have hndSC : (SL' ++ [c]).Nodup := (List.nodup_append.mp hnd).1
    have hcSL : c ∉ SL' := nodup_snoc_not_mem hndSC
    have hbSC : ∀ x ∈ SL' ++ [c], x < s.n := fun x hx =>
      hb x (List.mem_append.mpr (Or.inl hx))
    have htail : slotTail s 0 = some c := by
      obtain ⟨h₀, hsl0, htl⟩ := slotList_head_tail hS hndSC hbSC
      have h1 : slotTail s 0 = some ((chain s s.n h₀).getLastD h₀) := by
        unfold slotTail
        rw [hsl0]
      rw [h1, htl]
    have hstep : clickStockLoop s (SL'.length + 1) =
        clickStockLoop (klondikeClick s (Target.card c)) SL'.length := by
      conv_lhs => unfold clickStockLoop
      rw [htail]
    rw [hstep]
    rw [List.append_assoc, List.singleton_append] at hnd hb
    obtain ⟨h1S, h1W, h1n, h1m, h1fc, h1fo⟩ :=
      klondikeClick_stock_card hS hW hnd hb (hfd c (by simp))
    have hperm : (SL' ++ (c :: WL)).Perm (SL' ++ (WL ++ [c])) :=
      List.Perm.append_left SL' (List.Perm.symm (List.perm_append_singleton c WL))
    have hnd1 : (SL' ++ (WL ++ [c])).Nodup := hperm.nodup hnd
    have hb1 : ∀ x ∈ SL' ++ (WL ++ [c]), x < (klondikeClick s (Target.card c)).n :=
      fun x hx => by rw [h1n]; exact hb x (hperm.mem_iff.mpr hx)
    have hfd1 : ∀ x ∈ SL', ((klondikeClick s (Target.card c)).cards x).faceup = false :=
      fun x hx => by
        rw [h1fo x (fun e => hcSL (e ▸ hx))]
        exact hfd x (List.mem_append.mpr (Or.inl hx))
    obtain ⟨ihS, ihW, ihn, ihm, ihft, ihfo⟩ :=
      ih (klondikeClick s (Target.card c)) (WL ++ [c]) h1S h1W hnd1 hb1 hfd1
    have hl : (WL ++ [c]) ++ SL'.reverse = WL ++ (SL' ++ [c]).reverse := by
      rw [List.reverse_append, List.reverse_singleton, List.append_assoc,
        List.singleton_append]
    refine ⟨ihS, ?_, ?_, ?_, ?_, ?_⟩
    · rw [← hl]
      exact ihW
    · rw [ihn, h1n]
    · rw [ihm, h1m]
    · intro x hx
      rcases List.mem_append.mp hx with hx' | hx'
      · exact ihft x hx'
      · rcases List.mem_singleton.mp hx' with rfl
        rw [ihfo x hcSL]
        exact h1fc
    · intro x hx
      have hxS : x ∉ SL' := fun h => hx (List.mem_append.mpr (Or.inl h))
      have hxc : x ≠ c := fun e => hx (List.mem_append.mpr (Or.inr (by rw [e]; simp)))
      rw [ihfo x hxS, h1fo x hxc]

end Pylitaire

namespace Pylitaire

/-- The recycle loop (`while not waste.is_empty: waste.deal(stock,
FACEDOWN)`): the whole waste pile moves back onto the stock's tail in
reverse order, face-down, leaving the log and counters untouched. -/
theorem recycleLoop_spec :
    ∀ (WL : List Nat) (s : GameSt) (SL : List Nat) (acc : List UndoCmd) (fuel : Nat),
      SlotList s 1 WL → SlotList s 0 SL →
      (SL ++ WL).Nodup → (∀ x ∈ SL ++ WL, x < s.n) →
      WL.length < fuel →
      SlotList (recycleLoop 0 1 s acc fuel).1 0 (SL ++ WL.reverse) ∧
      SlotList (recycleLoop 0 1 s acc fuel).1 1 [] ∧
      (recycleLoop 0 1 s acc fuel).1.n = s.n ∧
      (recycleLoop 0 1 s acc fuel).1.m = s.m ∧
      (recycleLoop 0 1 s acc fuel).1.undocmds = s.undocmds ∧
      (recycleLoop 0 1 s acc fuel).1.redeals = s.redeals ∧
      (∀ x ∈ WL, ((recycleLoop 0 1 s acc fuel).1.cards x).faceup = false) ∧
      (∀ x, x ∉ WL → ((recycleLoop 0 1 s acc fuel).1.cards x).faceup =
        (s.cards x).faceup) := by
  intro WL
  induction WL using List.reverseRecOn with
  | nil =>
    intro s SL acc fuel hW hS hnd hb hlen
    cases fuel with
    | zero => exact absurd hlen (by simp)
    | succ f =>
      have hrw : recycleLoop 0 1 s acc (f + 1) = (s, acc) := by
        unfold recycleLoop
        rw [if_pos (show s.slots 1 = none from hW)]
      rw [hrw]
      refine ⟨?_, hW, rfl, rfl, rfl, rfl, by simp, fun x _ => rfl⟩
      rw [List.reverse_nil, List.append_nil]
      exact hS
  | append_singleton WL' c ih =>
    intro s SL acc fuel hW hS hnd hb hlen
    cases fuel with
    | zero => exact absurd hlen (by simp)
    | succ f =>
      obtain ⟨w₀, rest₀, hWeq⟩ : ∃ w₀ rest₀, WL' ++ [c] = w₀ :: rest₀ := by
        cases WL' with
        | nil => exact ⟨c, [], rfl⟩
        | cons a l => exact ⟨a, l ++ [c], rfl⟩
      have hslW : s.slots 1 = some w₀ := by
        rw [hWeq] at hW
        exact hW.1
      have hrw : recycleLoop 0 1 s acc (f + 1) =
          recycleLoop 0 1 (dealOp s 1 [0] TURN.FACEDOWN)
            (acc ++ [UndoCmd.deal 0 [1] TURN.FACEUP]) f := by
        conv_lhs => unfold recycleLoop
        rw [if_neg (show ¬s.slots 1 = none from by rw [hslW]; simp)]
      rw [hrw]
      have hndD : (WL' ++ c :: SL).Nodup := by
        have h1 : ((WL' ++ [c]) ++ SL).Nodup := List.perm_append_comm.nodup hnd
        rw [List.append_assoc, List.singleton_append] at h1
        exact h1
      have hbD : ∀ x ∈ WL' ++ c :: SL, x < s.n := by
        intro x hx
        apply hb x
        simp only [List.mem_append, List.mem_cons, List.mem_singleton] at hx ⊢
        tauto
      obtain ⟨hdW, hdS, hdsl, hdfc, hdfo⟩ :=
        deal_move (show (1 : Nat) ≠ 0 from by decide) TURN.FACEDOWN hW hS hndD hbD
      have hdn : (dealOp s 1 [0] TURN.FACEDOWN).n = s.n := (dealOp_ctrl s 1 [0] _).n
      have hdm : (dealOp s 1 [0] TURN.FACEDOWN).m = s.m := (dealOp_ctrl s 1 [0] _).m
      have hdu : (dealOp s 1 [0] TURN.FACEDOWN).undocmds = s.undocmds :=
        (dealOp_ctrl s 1 [0] _).undocmds
      have hdr : (dealOp s 1 [0] TURN.FACEDOWN).redeals = s.redeals :=
        (dealOp_ctrl s 1 [0] _).redeals
      have hcWL : c ∉ WL' := nodup_snoc_not_mem ((List.nodup_append.mp hnd).2.1)
      have hnd2 : ((SL ++ [c]) ++ WL').Nodup := by
        have h1 : (SL ++ (c :: WL')).Nodup :=
          (List.Perm.append_left SL (List.perm_append_singleton c WL')).nodup hnd
        rw [List.append_assoc, List.singleton_append]
        exact h1
      have hb2 : ∀ x ∈ (SL ++ [c]) ++ WL', x < (dealOp s 1 [0] TURN.FACEDOWN).n := by
        intro x hx
        rw [hdn]
        apply hb x
        simp only [List.mem_append, List.mem_cons, List.mem_singleton] at hx ⊢
        tauto
      have hlen2 : WL'.length < f := by
        have : (WL' ++ [c]).length = WL'.length + 1 := by simp
        omega
      obtain ⟨ihS, ihW, ihn, ihm, ihu, ihr, ihf, ihfo⟩ :=
        ih (dealOp s 1 [0] TURN.FACEDOWN) (SL ++ [c])
          (acc ++ [UndoCmd.deal 0 [1] TURN.FACEUP]) f hdW hdS hnd2 hb2 hlen2
      have hl : (SL ++ [c]) ++ WL'.reverse = SL ++ (WL' ++ [c]).reverse := by
        rw [List.reverse_append, List.reverse_singleton, List.append_assoc,
          List.singleton_append]
      refine ⟨?_, ihW, ?_, ?_, ?_, ?_, ?_, ?_⟩
      · rw [← hl]
        exact ihS
      · rw [ihn, hdn]
      · rw [ihm, hdm]
      · rw [ihu, hdu]
      · rw [ihr, hdr]
      · intro x hx
        rcases List.mem_append.mp hx with hx' | hx'
        · rw [ihf x hx']
        · rcases List.mem_singleton.mp hx' with rfl
          rw [ihfo x hcWL]
          exact hdfc
      · intro x hx
        have hxW : x ∉ WL' := fun h => hx (List.mem_append.mpr (Or.inl h))
        have hxc : x ≠ c := fun e => hx (List.mem_append.mpr (Or.inr (by rw [e]; simp)))
        rw [ihfo x hxW, hdfo x hxc]

/-- `Klondike.click` on the (card-free) stock slot: the waste pile is
recycled back to the stock face-down, preserving relative order. -/
theorem klondikeClick_empty_stock {s : GameSt} {WL : List Nat}
    (hm : 0 < s.m) (hS : SlotList s 0 []) (hW : SlotList s 1 WL)
    (hnd : WL.Nodup) (hb : ∀ x ∈ WL, x < s.n) :
    SlotList (klondikeClick s (Target.slot 0)) 0 WL.reverse ∧
    SlotList (klondikeClick s (Target.slot 0)) 1 [] ∧
    (klondikeClick s (Target.slot 0)).n = s.n ∧
    (klondikeClick s (Target.slot 0)).m = s.m ∧
    (∀ x ∈ WL, ((klondikeClick s (Target.slot 0)).cards x).faceup = false) ∧
    (∀ x, x ∉ WL → ((klondikeClick s (Target.slot 0)).cards x).faceup =
      (s.cards x).faceup) := by
  have hrw : klondikeClick s (Target.slot 0) =
      { (recycleLoop 0 1 s [] (s.n + 1)).1 with
        undocmds := (recycleLoop 0 1 s [] (s.n + 1)).1.undocmds ++
          [UndoEntry.group (recycleLoop 0 1 s [] (s.n + 1)).2] } := by
    unfold klondikeClick
    dsimp only
    rw [if_pos hm, if_pos rfl]
  have hlen : WL.length < s.n + 1 := Nat.lt_succ_of_le (nodup_length_le hnd hb)
  obtain ⟨hrS, hrW, hrn, hrm, hru, hrr, hrf, hrfo⟩ :=
    recycleLoop_spec WL s [] [] (s.n + 1) hW hS hnd hb hlen
  rw [hrw]
  refine ⟨slotList_setUndo _ hrS, slotList_setUndo _ hrW, hrn, hrm, ?_, ?_⟩
  · intro x hx
    exact hrf x hx
  · intro x hx
    exact hrfo x hx

/-- `Backbone.click` on the stock slot with a redeal in hand: the waste
is recycled face-down, `redeals` drops by one, and the undo log is left
exactly as it was. -/
theorem backboneClick_redeal {s : GameSt} {SL WL : List Nat}
    (hm : 0 < s.m) (hr : 0 < s.redeals)
    (hS : SlotList s 0 SL) (hW : SlotList s 1 WL)
    (hnd : (SL ++ WL).Nodup) (hb : ∀ x ∈ SL ++ WL, x < s.n) :
    (backboneClick s (Target.slot 0)).undocmds = s.undocmds ∧
    (undoable (backboneClick s (Target.slot 0)) ↔ undoable s) ∧
    (backboneClick s (Target.slot 0)).redeals = s.redeals - 1 ∧
    SlotList (backboneClick s (Target.slot 0)) 0 (SL ++ WL.reverse) ∧
    SlotList (backboneClick s (Target.slot 0)) 1 [] ∧
    (∀ x ∈ WL, ((backboneClick s (Target.slot 0)).cards x).faceup = false) := by
  have hrw : backboneClick s (Target.slot 0) =
      { (recycleLoop 0 1 s [] (s.n + 1)).1 with
        redeals := (recycleLoop 0 1 s [] (s.n + 1)).1.redeals - 1 } := by
    unfold backboneClick
    dsimp only
    rw [if_pos hm, if_pos ⟨rfl, hr⟩]
  have hndW : WL.Nodup := (List.nodup_append.mp hnd).2.1
  have hbW : ∀ x ∈ WL, x < s.n := fun x hx => hb x (List.mem_append.mpr (Or.inr hx))
  have hlen : WL.length < s.n + 1 := Nat.lt_succ_of_le (nodup_length_le hndW hbW)
  obtain ⟨hrS, hrW, hrn, hrm, hru, hrr, hrf, hrfo⟩ :=
    recycleLoop_spec WL s SL [] (s.n + 1) hW hS hnd hb hlen
  rw [hrw]
  have hu : ({ (recycleLoop 0 1 s [] (s.n + 1)).1 with
      redeals := (recycleLoop 0 1 s [] (s.n + 1)).1.redeals - 1 } : GameSt).undocmds =
      s.undocmds := hru
  refine ⟨hu, ?_, ?_, slotList_setRedeals _ hrS, slotList_setRedeals _ hrW, ?_⟩
  · unfold undoable
    rw [hu]
  · show (recycleLoop 0 1 s [] (s.n + 1)).1.redeals - 1 = s.redeals - 1
    rw [hrr]
  · intro x hx
    exact hrf x hx

end Pylitaire

namespace Pylitaire

/-- C7 (amended): in Klondike, from a well-formed position whose stock
pile holds the face-down cards `L` (bottom first) with an empty waste,
clicking the stock's tail card once per stock card deals the cards one
at a time face-up onto the waste, yielding the waste pile `L.reverse`;
a further click on the now card-free stock slot moves every waste card
back to the stock face-down preserving relative order (the stock pile
is exactly `L` again), and clicking through the stock a second time
reproduces exactly the same waste sequence `L.reverse`. -/
theorem C7_stock_redeal_cycle (s : GameSt) (L : List Nat)
    (hm : 0 < s.m) (hS : SlotList s 0 L) (hW : SlotList s 1 [])
    (hnd : L.Nodup) (hb : ∀ x ∈ L, x < s.n)
    (hfd : ∀ x ∈ L, (s.cards x).faceup = false) :
    SlotList (clickStockLoop s L.length) 0 [] ∧
    SlotList (clickStockLoop s L.length) 1 L.reverse ∧
    (∀ x ∈ L, ((clickStockLoop s L.length).cards x).faceup = true) ∧
    SlotList (klondikeClick (clickStockLoop s L.length) (Target.slot 0)) 0 L ∧
    SlotList (klondikeClick (clickStockLoop s L.length) (Target.slot 0)) 1 [] ∧
    (∀ x ∈ L, ((klondikeClick (clickStockLoop s L.length)
      (Target.slot 0)).cards x).faceup = false) ∧
    SlotList (clickStockLoop (klondikeClick (clickStockLoop s L.length)
      (Target.slot 0)) L.length) 1 L.reverse := by
  obtain ⟨p1S, p1W, p1n, p1m, p1ft, p1fo⟩ :=
    clickStockLoop_deals L s [] hS hW
      (by rw [List.append_nil]; exact hnd)
      (by rw [List.append_nil]; exact hb) hfd
  have p1W' : SlotList (clickStockLoop s L.length) 1 L.reverse := p1W
  obtain ⟨p2S, p2W, p2n, p2m, p2f, p2fo⟩ :=
    klondikeClick_empty_stock (by rw [p1m]; exact hm) p1S p1W'
      (List.nodup_reverse.mpr hnd)
      (fun x hx => by rw [p1n]; exact hb x (List.mem_reverse.mp hx))
  have p2S' : SlotList (klondikeClick (clickStockLoop s L.length) (Target.slot 0)) 0 L := by
    rw [List.reverse_reverse] at p2S
    exact p2S
  have p2fL : ∀ x ∈ L, ((klondikeClick (clickStockLoop s L.length)
      (Target.slot 0)).cards x).faceup = false :=
    fun x hx => p2f x (List.mem_reverse.mpr hx)
  obtain ⟨p3S, p3W, p3n, p3m, p3ft, p3fo⟩ :=
    clickStockLoop_deals L (klondikeClick (clickStockLoop s L.length) (Target.slot 0)) []
      p2S' p2W
      (by rw [List.append_nil]; exact hnd)
      (by
        rw [List.append_nil]
        intro x hx
        rw [p2n, p1n]
        exact hb x hx)
      p2fL
  exact ⟨p1S, p1W', p1ft, p2S', p2W, p2fL, p3W⟩

/-- C7 counterexample: a Klondike position whose stock holds a single
face-up card with an empty waste.  Clicking the stock's tail card is a
no-op (`Klondike.click`'s card branch requires the tail to be
face-down), so the repeated-click pass never deals the stock. -/
theorem C7_counterexample_faceup_stock :
    c7FaceupState.slots 0 = some 0 ∧ c7FaceupState.slots 1 = none ∧
    (c7FaceupState.cards 0).faceup = true ∧
    slotTail c7FaceupState 0 = some 0 ∧
    klondikeClick c7FaceupState (Target.card 0) = c7FaceupState ∧
    clickStockLoop c7FaceupState 1 = c7FaceupState :=
  ⟨rfl, rfl, rfl, rfl, rfl, rfl⟩

theorem C7_stock_redeal_cycle_witness :
    (0 < c7WitnessState.m ∧ SlotList c7WitnessState 0 [0, 1] ∧
      SlotList c7WitnessState 1 [] ∧ ([0, 1] : List Nat).Nodup ∧
      (∀ x ∈ ([0, 1] : List Nat), x < c7WitnessState.n) ∧
      (∀ x ∈ ([0, 1] : List Nat), (c7WitnessState.cards x).faceup = false)) ∧
    SlotList (clickStockLoop (klondikeClick (clickStockLoop c7WitnessState
      ([0, 1] : List Nat).length) (Target.slot 0)) ([0, 1] : List Nat).length) 1
      ([0, 1] : List Nat).reverse :=
  ⟨⟨by decide, by decide, by decide, by decide, by decide, by decide⟩,
    (C7_stock_redeal_cycle c7WitnessState [0, 1] (by decide) (by decide) (by decide)
      (by decide) (by decide) (by decide)).2.2.2.2.2.2⟩

/-- C10: a Backbone click on the stock slot with `redeals > 0` moves
every waste card back onto the stock face-down (preserving relative
order) and decrements `redeals`, but leaves the undo log unchanged —
the inverse commands built for the gesture are never appended — so
`undoable()` is the same before and after and the redeal cannot be
undone. -/
theorem C10_backbone_redeal_frame (s : GameSt) (SL WL : List Nat)
    (hm : 0 < s.m) (hr : 0 < s.redeals)
    (hS : SlotList s 0 SL) (hW : SlotList s 1 WL)
    (hnd : (SL ++ WL).Nodup) (hb : ∀ x ∈ SL ++ WL, x < s.n) :
    (backboneClick s (Target.slot 0)).undocmds = s.undocmds ∧
    (undoable (backboneClick s (Target.slot 0)) ↔ undoable s) ∧
    (backboneClick s (Target.slot 0)).redeals = s.redeals - 1 ∧
    SlotList (backboneClick s (Target.slot 0)) 0 (SL ++ WL.reverse) ∧
    SlotList (backboneClick s (Target.slot 0)) 1 [] ∧
    (∀ x ∈ WL, ((backboneClick s (Target.slot 0)).cards x).faceup = false) :=
  backboneClick_redeal hm hr hS hW hnd hb

theorem C10_backbone_redeal_frame_witness :
    (0 < c10WitnessState.m ∧ 0 < c10WitnessState.redeals ∧
      SlotList c10WitnessState 0 [0] ∧ SlotList c10WitnessState 1 [1] ∧
      (([0] : List Nat) ++ [1]).Nodup ∧
      (∀ x ∈ ([0] : List Nat) ++ [1], x < c10WitnessState.n)) ∧
    (backboneClick c10WitnessState (Target.slot 0)).undocmds =
      c10WitnessState.undocmds ∧
    (backboneClick c10WitnessState (Target.slot 0)).redeals =
      c10WitnessState.redeals - 1 :=
  ⟨⟨by decide, by decide, by decide, by decide, by decide, by decide⟩,
    (C10_backbone_redeal_frame c10WitnessState [0] [1] (by decide) (by decide)
      (by decide) (by decide) (by decide) (by decide)).1,
    (C10_backbone_redeal_frame c10WitnessState [0] [1] (by decide) (by decide)
      (by decide) (by decide) (by decide) (by decide)).2.2.1⟩

end Pylitaire
